import Mathlib

/-!
Shallow embedding of the CrazySmartCar evolutionary training engine
(`neuralNetwork.js`, the advanced `GeneticAlgorithm`, `Config`,
`NoveltyArchive`, and the `Car` fields the engine reads or writes),
together with theorems settling the specification claims.

Modelling conventions:
* JavaScript numbers are modelled by `ℚ`.  `Math.sqrt` is modelled by
  `sqrtQ`, an exact rational square root on perfect squares (all concrete
  evaluations below take perfect-square arguments); `Math.tanh` is kept
  abstract as an activation-function parameter `act` of `predict`
  (every theorem holds for every activation).
* `Math.random()` is modelled by a `RandSrc`: a stream `ℕ → ℚ` with a
  cursor; each call reads the next stream value through `jsRandom`,
  which realizes `Math.random`'s contract (a value in `[0, 1)`): it is
  the identity there and maps out-of-contract stream values to 0, so
  the streams range exactly over the possible behaviors of
  `Math.random`.
* A one-dimensional out-of-range JavaScript array read yields
  `undefined`, modelled by a default value (`jsGet`); indexing INTO a
  missing row (`m[i][j]` with `m[i]` undefined) throws a TypeError,
  which `crossover` — the one engine function whose loops can read rows
  of a foreign array — models by returning `none`.
* JavaScript's `Array.prototype.sort` is stable (ES2019); it is modelled
  by the stable `List.insertionSort` from Mathlib.
* In-place field mutation of cars is modelled by returning the updated
  list of cars alongside the other results.
-/

namespace CrazySmartCar

/-- Stream of pseudo-random numbers together with a cursor; each
`Math.random()` call reads one value and advances the cursor. -/
structure RandSrc where
  f : ℕ → ℚ
  idx : ℕ

/-- The contract of `Math.random`: its result lies in `[0, 1)`.  The
identity on that interval; stream values outside it (which
`Math.random` can never produce) are mapped to 0, so that `RandSrc`
streams represent exactly the possible behaviors of `Math.random`. -/
def jsRandom (q : ℚ) : ℚ := if 0 ≤ q ∧ q < 1 then q else 0

/-- One `Math.random()` call. -/
def RandSrc.next (r : RandSrc) : ℚ × RandSrc :=
  (jsRandom (r.f r.idx), ⟨r.f, r.idx + 1⟩)

/-- Array read `l[i]`; out of range it yields `undefined` in JS,
modelled by the supplied default. -/
def jsGet (l : List ℚ) (i : ℕ) : ℚ := l.getD i 0

/-- Matrix row read `m[i]`. -/
def jsRow (m : List (List ℚ)) (i : ℕ) : List ℚ := m.getD i []

/-- Exact rational square root on perfect squares (stand-in for
`Math.sqrt`; every concrete evaluation in this file takes a
perfect-square argument, where this agrees with the real square root). -/
def sqrtQ (q : ℚ) : ℚ :=
  if q ≤ 0 then 0 else (Nat.sqrt q.num.toNat : ℚ) / (Nat.sqrt q.den : ℚ)

/-- JavaScript truthiness fallback `a || b` on numbers: `0` is falsy. -/
def jsOr (a b : ℚ) : ℚ := if a = 0 then b else a

/-! ### NeuralNetwork (`src/neuralNetwork.js`) -/

/-- The feedforward controller: three size fields, two weight matrices
and two bias vectors, exactly the fields of the JS class. -/
structure NeuralNetwork where
  inputSize : ℕ
  hiddenSize : ℕ
  outputSize : ℕ
  weightsInputHidden : List (List ℚ)
  weightsHiddenOutput : List (List ℚ)
  biasHidden : List ℚ
  biasOutput : List ℚ
deriving DecidableEq, Repr

/-- Draw `n` values `Math.random() * 2 - 1` in stream order
(one weight row of `randomize`). -/
def drawRow : ℕ → RandSrc → List ℚ × RandSrc
  | 0, r => ([], r)
  | n + 1, r =>
    let v := r.next
    let rest := drawRow n v.2
    ((v.1 * 2 - 1) :: rest.1, rest.2)

/-- One layer of `randomize`: for each of `rows` neurons draw a weight
row of `cols` values then one bias value, in the JS loop order. -/
def drawLayer : ℕ → ℕ → RandSrc → List (List ℚ) × List ℚ × RandSrc
  | 0, _, r => ([], [], r)
  | rows + 1, cols, r =>
    let row := drawRow cols r
    let b := row.2.next
    let rest := drawLayer rows cols b.2
    (row.1 :: rest.1, (b.1 * 2 - 1) :: rest.2.1, rest.2.2)

/-- The `NeuralNetwork` constructor: allocate the four tensors and
`randomize()` them (consuming the random stream in loop order). -/
def NeuralNetwork.create (i h o : ℕ) (r : RandSrc) : NeuralNetwork × RandSrc :=
  let hid := drawLayer h i r
  let out := drawLayer o h hid.2.2
  (⟨i, h, o, hid.1, out.1, hid.2.1, out.2.1⟩, out.2.2)

/-- Copy loop target: entry `(i, j)` of the result is `src[i][j]` for
`i < rows`, `j < cols` (the nested copy loops of `clone`). -/
def copyMatrix (rows cols : ℕ) (src : List (List ℚ)) : List (List ℚ) :=
  (List.range rows).map fun i => (List.range cols).map fun j => jsGet (jsRow src i) j

/-- Copy loop target for a vector. -/
def copyVec (n : ℕ) (src : List ℚ) : List ℚ :=
  (List.range n).map fun i => jsGet src i

/-- `clone()`: construct a fresh randomized network of the same sizes
(consuming random draws), then overwrite every entry with the source's. -/
def NeuralNetwork.clone (nn : NeuralNetwork) (r : RandSrc) : NeuralNetwork × RandSrc :=
  let fr := NeuralNetwork.create nn.inputSize nn.hiddenSize nn.outputSize r
  ({ fr.1 with
      weightsInputHidden := copyMatrix nn.hiddenSize nn.inputSize nn.weightsInputHidden
      weightsHiddenOutput := copyMatrix nn.outputSize nn.hiddenSize nn.weightsHiddenOutput
      biasHidden := copyVec nn.hiddenSize nn.biasHidden
      biasOutput := copyVec nn.outputSize nn.biasOutput }, fr.2)

/-- `predict(inputs)`: one hidden layer then the output layer, each
neuron `act (bias + Σ weight·input)`.  The activation (`Math.tanh` in
the source) is an explicit parameter. -/
def NeuralNetwork.predict (act : ℚ → ℚ) (nn : NeuralNetwork) (inputs : List ℚ) : List ℚ :=
  let hidden := (List.range nn.hiddenSize).map fun i =>
    act ((List.range nn.inputSize).foldl
      (fun s j => s + jsGet inputs j * jsGet (jsRow nn.weightsInputHidden i) j)
      (jsGet nn.biasHidden i))
  (List.range nn.outputSize).map fun i =>
    act ((List.range nn.hiddenSize).foldl
      (fun s j => s + jsGet hidden j * jsGet (jsRow nn.weightsHiddenOutput i) j)
      (jsGet nn.biasOutput i))

/-- One `mutateValue` application: with probability `rate` perturb by
`(Math.random() * 2 - 1) * 0.5` (one draw for the test, one more draw
only when it fires). -/
def mutateValue (rate : ℚ) (v : ℚ) (r : RandSrc) : ℚ × RandSrc :=
  let p := r.next
  if p.1 < rate then
    let g := p.2.next
    (v + (g.1 * 2 - 1) * (1 / 2), g.2)
  else (v, p.2)

/-- Mutate the entries of a vector at the given indices, in order. -/
def mutateIdx (rate : ℚ) (v : List ℚ) : List ℕ → RandSrc → List ℚ × RandSrc
  | [], r => ([], r)
  | j :: js, r =>
    let x := mutateValue rate (jsGet v j) r
    let rest := mutateIdx rate v js x.2
    (x.1 :: rest.1, rest.2)

/-- One layer of `mutate`: for each row index mutate the whole weight
row then the row's bias entry, matching the JS loop nesting. -/
def mutateLayer (rate : ℚ) (m : List (List ℚ)) (b : List ℚ) (cols : ℕ) :
    List ℕ → RandSrc → List (List ℚ) × List ℚ × RandSrc
  | [], r => ([], [], r)
  | i :: is, r =>
    let row := mutateIdx rate (jsRow m i) (List.range cols) r
    let bi := mutateValue rate (jsGet b i) row.2
    let rest := mutateLayer rate m b cols is bi.2
    (row.1 :: rest.1, bi.1 :: rest.2.1, rest.2.2)

/-- `mutate(rate)`: every weight and bias independently perturbed with
probability `rate`, looping over `hiddenSize × inputSize` then
`outputSize × hiddenSize` like the source. -/
def NeuralNetwork.mutate (nn : NeuralNetwork) (rate : ℚ) (r : RandSrc) :
    NeuralNetwork × RandSrc :=
  let hid := mutateLayer rate nn.weightsInputHidden nn.biasHidden nn.inputSize
    (List.range nn.hiddenSize) r
  let out := mutateLayer rate nn.weightsHiddenOutput nn.biasOutput nn.hiddenSize
    (List.range nn.outputSize) hid.2.2
  ({ nn with
      weightsInputHidden := hid.1
      weightsHiddenOutput := out.1
      biasHidden := hid.2.1
      biasOutput := out.2.1 }, out.2.2)

/-- Pick entries of a row from parent A or parent B with one 50/50 draw
per entry (`Math.random() < 0.5`).  Each parent's row is passed as it
was read (`m[i]`): `none` models an `undefined` row, and the moment a
pick selects a parent whose row is `undefined`, the JS `undefined[j]`
read throws a TypeError, modelled by returning `none`.  An in-range row
that is merely short yields `undefined` entries without throwing
(`jsGet` default). -/
def crossIdx (ra? rb? : Option (List ℚ)) : List ℕ → RandSrc → Option (List ℚ × RandSrc)
  | [], r => some ([], r)
  | j :: js, r =>
    let p := r.next
    if p.1 < 1 / 2 then
      match ra? with
      | none => none
      | some ra =>
        match crossIdx ra? rb? js p.2 with
        | none => none
        | some rest => some (jsGet ra j :: rest.1, rest.2)
    else
      match rb? with
      | none => none
      | some rb =>
        match crossIdx ra? rb? js p.2 with
        | none => none
        | some rest => some (jsGet rb j :: rest.1, rest.2)

/-- One layer of `crossover`: per row, cross the weight row then the
bias entry, matching the JS loop nesting; a TypeError inside a row
(missing parent row selected by a pick) aborts the whole call.  A bias
read out of range yields `undefined` silently (one-dimensional read). -/
def crossLayer (m1 m2 : List (List ℚ)) (b1 b2 : List ℚ) (cols : ℕ) :
    List ℕ → RandSrc → Option (List (List ℚ) × List ℚ × RandSrc)
  | [], r => some ([], [], r)
  | i :: is, r =>
    match crossIdx m1[i]? m2[i]? (List.range cols) r with
    | none => none
    | some row =>
      let p := row.2.next
      let bi := if p.1 < 1 / 2 then jsGet b1 i else jsGet b2 i
      match crossLayer m1 m2 b1 b2 cols is p.2 with
      | none => none
      | some rest => some (row.1 :: rest.1, bi :: rest.2.1, rest.2.2)

/-- `static crossover(parent1, parent2)`: build a fresh network with
parent1's dimensions (constructor draws included), then fill every
entry from parent1 or parent2 with independent 50/50 picks.  The source
performs no dimension check whatsoever: the only failure mode is the
TypeError thrown when a pick reads a weight row the selected parent
lacks (`undefined[j]`), modelled by `none`; it never raises a
DimensionMismatch. -/
def NeuralNetwork.crossover (p1 p2 : NeuralNetwork) (r : RandSrc) :
    Option (NeuralNetwork × RandSrc) :=
  let ch := NeuralNetwork.create p1.inputSize p1.hiddenSize p1.outputSize r
  match crossLayer p1.weightsInputHidden p2.weightsInputHidden
    p1.biasHidden p2.biasHidden p1.inputSize (List.range p1.hiddenSize) ch.2 with
  | none => none
  | some hid =>
    match crossLayer p1.weightsHiddenOutput p2.weightsHiddenOutput
      p1.biasOutput p2.biasOutput p1.hiddenSize (List.range p1.outputSize) hid.2.2 with
    | none => none
    | some out =>
      some ({ ch.1 with
        weightsInputHidden := hid.1
        weightsHiddenOutput := out.1
        biasHidden := hid.2.1
        biasOutput := out.2.1 }, out.2.2)

/-- The JSON form of a network: the three size integers and the four
tensors, exactly the fields `toJSON` exports. -/
structure NNJson where
  inputSize : ℕ
  hiddenSize : ℕ
  outputSize : ℕ
  weightsInputHidden : List (List ℚ)
  weightsHiddenOutput : List (List ℚ)
  biasHidden : List ℚ
  biasOutput : List ℚ
deriving DecidableEq, Repr

/-- `toJSON()`. -/
def NeuralNetwork.toJSON (nn : NeuralNetwork) : NNJson :=
  ⟨nn.inputSize, nn.hiddenSize, nn.outputSize, nn.weightsInputHidden,
    nn.weightsHiddenOutput, nn.biasHidden, nn.biasOutput⟩

/-- `static fromJSON(data)`: construct a fresh randomized network with
the data's sizes (consuming draws), then replace the four tensor
references wholesale with the data's. -/
def NeuralNetwork.fromJSON (d : NNJson) (r : RandSrc) : NeuralNetwork × RandSrc :=
  let fr := NeuralNetwork.create d.inputSize d.hiddenSize d.outputSize r
  ({ fr.1 with
      weightsInputHidden := d.weightsInputHidden
      weightsHiddenOutput := d.weightsHiddenOutput
      biasHidden := d.biasHidden
      biasOutput := d.biasOutput }, fr.2)

/-- Well-formedness: the four tensors have exactly the dimensions the
size fields announce (true of every network the JS code constructs). -/
def NeuralNetwork.WellFormed (nn : NeuralNetwork) : Prop :=
  nn.weightsInputHidden.length = nn.hiddenSize ∧
  (∀ row ∈ nn.weightsInputHidden, row.length = nn.inputSize) ∧
  nn.weightsHiddenOutput.length = nn.outputSize ∧
  (∀ row ∈ nn.weightsHiddenOutput, row.length = nn.hiddenSize) ∧
  nn.biasHidden.length = nn.hiddenSize ∧
  nn.biasOutput.length = nn.outputSize

instance (nn : NeuralNetwork) : Decidable nn.WellFormed := by
  unfold NeuralNetwork.WellFormed; infer_instance

/-! ### Config (the global configuration object) -/

/-- The `Config.network` fields the engine reads. -/
structure NetworkCfg where
  hiddenSize : ℕ
  sensorCount : ℕ
deriving DecidableEq, Repr

/-- The `Config.genetic` fields. -/
structure GeneticCfg where
  populationSize : ℕ
  mutationRate : ℚ
  elitism : ℕ
  crossoverRate : ℚ
deriving DecidableEq, Repr

/-- The `Config.adaptive` fields. -/
structure AdaptiveCfg where
  enabled : Bool
  stagnationThreshold : ℚ
  mutationBoost : ℚ
deriving DecidableEq, Repr

/-- The `Config.novelty` fields. -/
structure NoveltyCfg where
  enabled : Bool
  weight : ℚ
  archiveSize : ℕ
  kNeighbors : ℕ
deriving DecidableEq, Repr

/-- The `Config.sharing` fields. -/
structure SharingCfg where
  enabled : Bool
  sigma : ℚ
deriving DecidableEq, Repr

/-- The slice of the global `Config` object consumed by the
evolutionary engine. -/
structure Config where
  network : NetworkCfg
  genetic : GeneticCfg
  adaptive : AdaptiveCfg
  novelty : NoveltyCfg
  sharing : SharingCfg
deriving DecidableEq, Repr

/-- The default (minimum) configuration values from `config.js`:
hiddenSize 6, sensorCount 3; populationSize 20, mutationRate 0.01,
elitism 1, crossoverRate 0; adaptive disabled (threshold 2, boost 0.10);
novelty disabled (weight 0, archiveSize 20, kNeighbors 5); sharing
disabled (sigma 10). -/
def defaultConfig : Config :=
  ⟨⟨6, 3⟩, ⟨20, 1 / 100, 1, 0⟩, ⟨false, 2, 1 / 10⟩, ⟨false, 0, 20, 5⟩, ⟨false, 10⟩⟩

/-! ### NoveltyArchive -/

/-- A behavior descriptor as returned by `getBehaviorDescriptor`. -/
structure Behavior where
  finalX : ℚ
  finalY : ℚ
  maxCheckpoints : ℚ
  maxDistance : ℚ
  avgSpeed : ℚ
deriving DecidableEq, Repr

/-- The novelty archive: an ordered list of behaviors (oldest first). -/
structure NoveltyArchive where
  behaviors : List Behavior
deriving DecidableEq, Repr

/-- `NoveltyArchive.behaviorDistance(b1, b2)`: Euclidean final-position
distance (weight 1) + checkpoint-count difference (weight 100) +
distance-traveled difference (weight 0.1). -/
def NoveltyArchive.behaviorDistance (b1 b2 : Behavior) : ℚ :=
  let posWeight : ℚ := 1
  let cpWeight : ℚ := 100
  let distWeight : ℚ := 1 / 10
  let posDist := sqrtQ ((b1.finalX - b2.finalX) ^ 2 + (b1.finalY - b2.finalY) ^ 2)
  let cpDist := |b1.maxCheckpoints - b2.maxCheckpoints| * cpWeight
  let distDist := |b1.maxDistance - b2.maxDistance| * distWeight
  posDist * posWeight + cpDist + distDist

/-- Stable ascending sort of rational values, the model of
`distances.sort((a, b) => a - b)`. -/
def sortAsc (l : List ℚ) : List ℚ := l.insertionSort (· ≤ ·)

/-- `calculateNovelty(behavior)`: 1000 for an empty archive, else the
average of the `k = min(kNeighbors, size)` smallest distances to the
archived behaviors. -/
def NoveltyArchive.calculateNovelty (cfg : Config) (a : NoveltyArchive)
    (b : Behavior) : ℚ :=
  if a.behaviors = [] then 1000
  else
    let distances := sortAsc (a.behaviors.map fun bb => NoveltyArchive.behaviorDistance b bb)
    let k := min cfg.novelty.kNeighbors distances.length
    ((distances.take k).foldl (· + ·) 0) / (k : ℚ)

/-- `maybeAdd(behavior, novelty)`: push when `novelty > 50` or the
archive holds fewer than 10 entries; if the archive then exceeds
`archiveSize`, shift out the oldest entry. -/
def NoveltyArchive.maybeAdd (cfg : Config) (a : NoveltyArchive)
    (b : Behavior) (novelty : ℚ) : NoveltyArchive :=
  let threshold : ℚ := 50
  if novelty > threshold ∨ a.behaviors.length < 10 then
    let bs := a.behaviors ++ [b]
    ⟨if bs.length > cfg.novelty.archiveSize then bs.tail else bs⟩
  else a

/-! ### Car (the fields the engine reads or writes) -/

/-- A car color: either the random `hsl(hue, 70%, 50%)` of the
constructor or one of the medal colors `evolve` assigns. -/
inductive JsColor where
  | hsl (hue : ℚ)
  | gold
  | silver
  | bronze
deriving DecidableEq, Repr

/-- The `Car` fields the evolutionary engine reads or writes (the
physics/sensor fields are never touched by the engine and are
omitted). -/
structure Car where
  x : ℚ
  y : ℚ
  angle : ℚ
  alive : Bool
  fitness : ℚ
  totalDistance : ℚ
  checkpointsPassed : ℚ
  laps : ℚ
  bestLapTime : WithTop ℚ
  avgSpeed : ℚ
  novelty : ℚ
  sharedFitness : ℚ
  combinedScore : ℚ
  isBest : Bool
  color : JsColor
  brain : NeuralNetwork
deriving DecidableEq, Repr

/-- The `Car` constructor: fresh state (alive, zero fitness/distances,
`bestLapTime = Infinity`), the given brain or a freshly randomized one
(`sensorCount + 3` inputs, `hiddenSize` hidden, 4 outputs), and a
random hsl color (one draw). -/
def Car.create (cfg : Config) (x y angle : ℚ) (brain? : Option NeuralNetwork)
    (r : RandSrc) : Car × RandSrc :=
  let br :=
    match brain? with
    | some b => (b, r)
    | none => NeuralNetwork.create (cfg.network.sensorCount + 3) cfg.network.hiddenSize 4 r
  let c := br.2.next
  ({ x := x, y := y, angle := angle, alive := true, fitness := 0,
     totalDistance := 0, checkpointsPassed := 0, laps := 0,
     bestLapTime := ⊤, avgSpeed := 0, novelty := 0, sharedFitness := 0,
     combinedScore := 0, isBest := false, color := JsColor.hsl (c.1 * 360),
     brain := br.1 }, c.2)

/-- Default car used as the out-of-range read default for car arrays
(never reached under the validity hypotheses of the theorems below). -/
def defaultCar : Car :=
  { x := 0, y := 0, angle := 0, alive := true, fitness := 0,
    totalDistance := 0, checkpointsPassed := 0, laps := 0,
    bestLapTime := ⊤, avgSpeed := 0, novelty := 0, sharedFitness := 0,
    combinedScore := 0, isBest := false, color := JsColor.hsl 0,
    brain := ⟨0, 0, 0, [], [], [], []⟩ }

/-- `getBehaviorDescriptor(car)`. -/
def NoveltyArchive.getBehaviorDescriptor (car : Car) : Behavior :=
  ⟨car.x, car.y, car.checkpointsPassed, car.totalDistance, car.avgSpeed⟩

/-! ### GeneticAlgorithm (the advanced engine) -/

/-- The mutable state of the advanced `GeneticAlgorithm` object. -/
structure GAState where
  populationSize : ℕ
  mutationRate : ℚ
  generation : ℕ
  bestFitness : ℚ
  bestLaps : ℚ
  bestLapTime : WithTop ℚ
  bestBrain : Option NeuralNetwork
  allTimeBestBrain : Option NeuralNetwork
  stagnationCounter : ℕ
  lastBestFitness : ℚ
  noveltyArchive : NoveltyArchive
  diversity : ℚ

/-- The `GeneticAlgorithm` constructor (default `mutationRate = 0.15`):
generation 1, zeroed records, empty novelty archive. -/
def GAState.init (populationSize : ℕ) : GAState :=
  { populationSize := populationSize, mutationRate := 3 / 20, generation := 1,
    bestFitness := 0, bestLaps := 0, bestLapTime := ⊤, bestBrain := none,
    allTimeBestBrain := none, stagnationCounter := 0, lastBestFitness := 0,
    noveltyArchive := ⟨[]⟩, diversity := 0 }

/-- `GeneticAlgorithm.behaviorDistance(car1, car2)`: Euclidean position
distance plus 100 × checkpoint difference.  Unlike the archive's
measure it has no distance-traveled term. -/
def gaBehaviorDistance (c1 c2 : Car) : ℚ :=
  let posDist := sqrtQ ((c1.x - c2.x) ^ 2 + (c1.y - c2.y) ^ 2)
  let cpDist := |c1.checkpointsPassed - c2.checkpointsPassed| * 100
  posDist + cpDist

/-- `getCurrentMutationRate()`: base rate, plus
`min(stagnation/threshold, 1) * boost` when adaptive mutation is on,
capped at 0.8. -/
def getCurrentMutationRate (cfg : Config) (st : GAState) : ℚ :=
  let rate := cfg.genetic.mutationRate
  let rate :=
    if cfg.adaptive.enabled then
      rate + min ((st.stagnationCounter : ℚ) / cfg.adaptive.stagnationThreshold) 1
        * cfg.adaptive.mutationBoost
    else rate
  min rate (4 / 5)

/-- The inner loop of `applyFitnessSharing` for the car at index `i`:
sum the sharing function `1 - d/sigma` over every other index whose
car lies within `sigma` (`gaBehaviorDistance`). -/
def sharingSumFor (cfg : Config) (cars : List Car) (i : ℕ) : ℚ :=
  ((List.range cars.length).filter fun j => j ≠ i).foldl
    (fun s j =>
      let distance := gaBehaviorDistance (cars.getD i defaultCar) (cars.getD j defaultCar)
      if distance < cfg.sharing.sigma then s + (1 - distance / cfg.sharing.sigma) else s) 0

/-- `applyFitnessSharing(cars)`: for every car, sum `1 - d/sigma` over
the other cars within `sigma` (`gaBehaviorDistance`) and set
`sharedFitness = fitness / (1 + sum)`; unchanged if sharing disabled.
Distinct array slots hold distinct car objects in the source, so the
reference test `car === other` is modelled by an index test. -/
def applyFitnessSharing (cfg : Config) (cars : List Car) : List Car :=
  if cfg.sharing.enabled then
    (List.range cars.length).map fun i =>
      { cars.getD i defaultCar with
        sharedFitness := (cars.getD i defaultCar).fitness / (1 + sharingSumFor cfg cars i) }
  else cars

/-- The loop body of `applyNoveltyScores`, threading the archive
through the population in order: score each car's novelty against the
current archive, set `combinedScore`, then offer the car's descriptor
to the archive. -/
def applyNoveltyLoop (cfg : Config) : List Car → NoveltyArchive →
    List Car × NoveltyArchive
  | [], a => ([], a)
  | car :: rest, a =>
    let behavior := NoveltyArchive.getBehaviorDescriptor car
    let nov := NoveltyArchive.calculateNovelty cfg a behavior
    let noveltyWeight := cfg.novelty.weight
    let fitnessWeight := 1 - noveltyWeight
    let normalizedFitness := car.fitness / 10000
    let normalizedNovelty := nov / 500
    let car' := { car with
      novelty := nov
      combinedScore := fitnessWeight * normalizedFitness + noveltyWeight * normalizedNovelty }
    let a' := NoveltyArchive.maybeAdd cfg a behavior nov
    let rest' := applyNoveltyLoop cfg rest a'
    (car' :: rest'.1, rest'.2)

/-- `applyNoveltyScores(cars)`: no-op when novelty search is disabled,
else the loop above. -/
def applyNoveltyScores (cfg : Config) (arch : NoveltyArchive) (cars : List Car) :
    List Car × NoveltyArchive :=
  if cfg.novelty.enabled then applyNoveltyLoop cfg cars arch else (cars, arch)

/-- `calculateDiversity(cars)` for `cars.length ≥ 2`: average pairwise
`gaBehaviorDistance` over the first `min(length, 20)` cars. -/
def diversityValue (cars : List Car) : ℚ :=
  let m := min cars.length 20
  let pairs := (List.range m).flatMap fun i =>
    ((List.range m).filter fun j => i < j).map fun j => (i, j)
  let totalDistance := pairs.foldl
    (fun s p => s + gaBehaviorDistance (cars.getD p.1 defaultCar) (cars.getD p.2 defaultCar)) 0
  if 0 < pairs.length then totalDistance / (pairs.length : ℚ) else 0

/-- The active ranking key of `selection`: `combinedScore || fitness`
under novelty search, `sharedFitness || fitness` under sharing, else
raw `fitness` (JS `||` falls back on 0). -/
def sortKeyOf (cfg : Config) : Car → ℚ :=
  if cfg.novelty.enabled then fun car => jsOr car.combinedScore car.fitness
  else if cfg.sharing.enabled then fun car => jsOr car.sharedFitness car.fitness
  else fun car => car.fitness

/-- Stable descending sort by a key, the model of
`[...cars].sort((a, b) => sortKey(b) - sortKey(a))`. -/
def sortDescBy (key : Car → ℚ) (l : List Car) : List Car :=
  l.insertionSort fun a b => key b ≤ key a

/-- The record-update block of `selection`, in statement order: update
the stagnation counter and `lastBestFitness`, then `bestFitness` /
`bestBrain` (cloning the winner's brain, which consumes random draws),
then best laps and lap time, then the all-time best brain (the
`bestFitness` compared there is the freshly updated one). -/
def selectionRecords (st : GAState) (arch1 : NoveltyArchive)
    (diversity1 : ℚ) (best : Car) (r : RandSrc) : GAState × RandSrc :=
  let bestFitness := best.fitness
  let stag := if bestFitness ≤ st.lastBestFitness * (101 / 100)
    then st.stagnationCounter + 1 else 0
  let ub :=
    if st.bestFitness < bestFitness then
      let c := best.brain.clone r
      (bestFitness, some c.1, c.2)
    else (st.bestFitness, st.bestBrain, r)
  let bestLaps' := if st.bestLaps < best.laps then best.laps else st.bestLaps
  let bestLapTime' := if best.bestLapTime < st.bestLapTime
    then best.bestLapTime else st.bestLapTime
  let ua :=
    if st.allTimeBestBrain = none ∨ ub.1 ≤ bestFitness then
      let c := best.brain.clone ub.2.2
      (some c.1, c.2)
    else (st.allTimeBestBrain, ub.2.2)
  ({ st with
      noveltyArchive := arch1, diversity := diversity1,
      stagnationCounter := stag, lastBestFitness := bestFitness,
      bestFitness := ub.1, bestBrain := ub.2.1,
      bestLaps := bestLaps', bestLapTime := bestLapTime',
      allTimeBestBrain := ua.1 }, ua.2)

/-- The elite-pool size `Math.max(4, Math.floor(populationSize * 0.25))`. -/
def eliteCountOf (st : GAState) : ℕ :=
  max 4 (Int.floor ((st.populationSize : ℚ) * (1 / 4))).toNat

/-- `selection(cars)`: apply sharing, novelty scoring and the diversity
metric, sort a copy of the population descending by the active key,
update stagnation and best-ever records (cloning brains consumes random
draws), and return the top `max(4, floor(populationSize * 0.25))`.
Returns the updated cars, the elite, the new state and the advanced
random source; `none` models the TypeError an empty population raises. -/
def selection (cfg : Config) (st : GAState) (cars : List Car) (r : RandSrc) :
    Option (List Car × List Car × GAState × RandSrc) :=
  let cars1 := applyFitnessSharing cfg cars
  let pn := applyNoveltyScores cfg st.noveltyArchive cars1
  let diversity1 := if pn.1.length < 2 then st.diversity else diversityValue pn.1
  let sorted := sortDescBy (sortKeyOf cfg) pn.1
  match sorted with
  | [] => none
  | best :: _ =>
    let sr := selectionRecords st pn.2 diversity1 best r
    some (pn.1, sorted.take (eliteCountOf st), sr.1, sr.2)

/-- The sampling loop of `tournamentSelect`: `count` further candidates
drawn uniformly from `elite`, keeping the higher-scoring one. -/
def tournamentLoop (cfg : Config) (elite : List Car) :
    ℕ → Car → RandSrc → Car × RandSrc
  | 0, best, r => (best, r)
  | n + 1, best, r =>
    let (v, r1) := r.next
    let competitor := elite.getD (Int.floor (v * (elite.length : ℚ))).toNat defaultCar
    let bestScore := if cfg.novelty.enabled
      then jsOr best.combinedScore best.fitness else best.fitness
    let competitorScore := if cfg.novelty.enabled
      then jsOr competitor.combinedScore competitor.fitness else competitor.fitness
    tournamentLoop cfg elite n (if bestScore < competitorScore then competitor else best) r1

/-- `tournamentSelect(elite)`: one uniform pick, then
`min(4, |elite|) - 1` challenge rounds. -/
def tournamentSelect (cfg : Config) (elite : List Car) (r : RandSrc) :
    Car × RandSrc :=
  let tournamentSize := min 4 elite.length
  let (v, r1) := r.next
  let best := elite.getD (Int.floor (v * (elite.length : ℚ))).toNat defaultCar
  tournamentLoop cfg elite (tournamentSize - 1) best r1

/-- One iteration of `evolve`'s fill loop: pick two parents by
tournament, cross over with probability `crossoverRate` (else clone
parent1), mutate at `mutationRate`, optionally hypermutate at rate 0.5
(10% chance, only under strong stagnation), and build the child car.
A TypeError raised by `crossover` propagates (`none`). -/
def evolveChild (cfg : Config) (st : GAState) (startX startY startAngle : ℚ)
    (elite : List Car) (mutationRate : ℚ) (r : RandSrc) :
    Option (Car × RandSrc) :=
  let p1 := tournamentSelect cfg elite r
  let p2 := tournamentSelect cfg elite p1.2
  let v := p2.2.next
  let cb0? :=
    if v.1 < cfg.genetic.crossoverRate then
      NeuralNetwork.crossover p1.1.brain p2.1.brain v.2
    else some (p1.1.brain.clone v.2)
  match cb0? with
  | none => none
  | some cb0 =>
    let cb1 := cb0.1.mutate mutationRate cb0.2
    let cb2 :=
      if cfg.adaptive.stagnationThreshold * 2 < (st.stagnationCounter : ℚ) then
        let h := cb1.2.next
        if h.1 < 1 / 10 then cb1.1.mutate (1 / 2) h.2 else (cb1.1, h.2)
      else cb1
    some (Car.create cfg startX startY startAngle (some cb2.1) cb2.2)

/-- The `while (newCars.length < populationSize)` loop of `evolve`,
run for the number of missing cars; a crossover TypeError aborts it. -/
def evolveFill (cfg : Config) (st : GAState) (startX startY startAngle : ℚ)
    (elite : List Car) (mutationRate : ℚ) :
    ℕ → RandSrc → Option (List Car × RandSrc)
  | 0, r => some ([], r)
  | n + 1, r =>
    match evolveChild cfg st startX startY startAngle elite mutationRate r with
    | none => none
    | some car =>
      match evolveFill cfg st startX startY startAngle elite mutationRate n car.2 with
      | none => none
      | some rest => some (car.1 :: rest.1, rest.2)

/-- The elitism loop of `evolve`: for `i < min(elitism, |elite|)` clone
`elite[i]`'s brain into a fresh car, mark `i = 0` as best, and color
the first three gold, silver, bronze. -/
def evolveElites (cfg : Config) (startX startY startAngle : ℚ) (elite : List Car) :
    List ℕ → RandSrc → List Car × RandSrc
  | [], r => ([], r)
  | i :: is, r =>
    let cb := (elite.getD i defaultCar).brain.clone r
    let c0 := Car.create cfg startX startY startAngle (some cb.1) cb.2
    let car := { c0.1 with
      isBest := i = 0
      color := if i = 0 then JsColor.gold else if i = 1 then JsColor.silver
        else JsColor.bronze }
    let rest := evolveElites cfg startX startY startAngle elite is c0.2
    (car :: rest.1, rest.2)

/-- `evolve(cars, track)`: run `selection`, copy the first `elitism`
elites unmodified, fill the remaining slots with mutated offspring, and
increment the generation counter once the population is fully built. -/
def evolve (cfg : Config) (st : GAState) (cars : List Car)
    (startX startY startAngle : ℚ) (r : RandSrc) :
    Option (List Car × GAState × RandSrc) :=
  match selection cfg st cars r with
  | none => none
  | some (_, elite, st1, r1) =>
    let elitismCount := min cfg.genetic.elitism elite.length
    let ec := evolveElites cfg startX startY startAngle elite (List.range elitismCount) r1
    let mutationRate := getCurrentMutationRate cfg st1
    match evolveFill cfg st1 startX startY startAngle elite mutationRate
      (st1.populationSize - elitismCount) ec.2 with
    | none => none
    | some fc =>
      some (ec.1 ++ fc.1, { st1 with generation := st1.generation + 1 }, fc.2)

/-- Run a sequence of `selection` calls, feeding one population per
generation and threading the engine state and the random source;
`none` if any call crashes (empty population). -/
def runSelections (cfg : Config) : List (List Car) → GAState → RandSrc →
    Option (GAState × RandSrc)
  | [], st, r => some (st, r)
  | cars :: ps, st, r =>
    match selection cfg st cars r with
    | none => none
    | some (_, _, st', r') => runSelections cfg ps st' r'

/-- The non-derived fields of a `Car`: everything except the engine's
derived score fields `sharedFitness`, `novelty` and `combinedScore`. -/
structure CoreCar where
  x : ℚ
  y : ℚ
  angle : ℚ
  alive : Bool
  fitness : ℚ
  totalDistance : ℚ
  checkpointsPassed : ℚ
  laps : ℚ
  bestLapTime : WithTop ℚ
  avgSpeed : ℚ
  isBest : Bool
  color : JsColor
  brain : NeuralNetwork
deriving DecidableEq, Repr

/-- Project a car onto its non-derived fields. -/
def Car.core (c : Car) : CoreCar :=
  ⟨c.x, c.y, c.angle, c.alive, c.fitness, c.totalDistance, c.checkpointsPassed,
    c.laps, c.bestLapTime, c.avgSpeed, c.isBest, c.color, c.brain⟩

/-! ### Spec-side definition for the refinement comparison of claim C5 -/

/-- Written after the specification's words, for comparison with the
code's `applyFitnessSharing`: the spec asserts fitness sharing uses the
same weighted behavior distance as the `NoveltyArchive` (position +
heavily weighted checkpoint difference + lightly weighted
distance-traveled difference), applied to the live agents'
descriptors. -/
def specSharedFitness (cfg : Config) (cars : List Car) (i : ℕ) : ℚ :=
  let sigma := cfg.sharing.sigma
  let ci := cars.getD i defaultCar
  let total := ((List.range cars.length).filter fun j => j ≠ i).foldl
    (fun s j =>
      let d := NoveltyArchive.behaviorDistance
        (NoveltyArchive.getBehaviorDescriptor ci)
        (NoveltyArchive.getBehaviorDescriptor (cars.getD j defaultCar))
      if d < sigma then s + (1 - d / sigma) else s) 0
  ci.fitness / (1 + total)

/-! ### Concrete fixtures used by witnesses and counterexamples -/

/-- The all-zero random source (every `Math.random()` call yields 0,
a legal value of `[0, 1)`). -/
def rzero : RandSrc := ⟨fun _ => 0, 0⟩

/-- A tiny well-formed 1-1-1 controller. -/
def nn1 : NeuralNetwork := ⟨1, 1, 1, [[1]], [[2]], [3], [4]⟩

/-- A second well-formed 1-1-1 controller with different weights. -/
def nn1b : NeuralNetwork := ⟨1, 1, 1, [[5]], [[6]], [7], [8]⟩

/-- A well-formed 2-2-2 controller (dimension-mismatched with `nn1`). -/
def nn2 : NeuralNetwork :=
  ⟨2, 2, 2, [[5, 6], [7, 8]], [[9, 10], [11, 12]], [13, 14], [15, 16]⟩

/-- A well-formed 1-2-1 controller, taller than `nn1` (two hidden
rows), used to drive crossover into its TypeError path. -/
def nnTall : NeuralNetwork := ⟨1, 2, 1, [[1], [2]], [[3, 4]], [5, 6], [7]⟩

/-- A random source whose tenth draw selects parent2 (value 1/2) and
whose other draws select parent1: crossing `nnTall` with `nn1` reads
parent2's missing second weight row exactly there. -/
def rhalf : RandSrc := ⟨fun n => if n = 9 then 1 / 2 else 0, 0⟩

/-- A behavior descriptor at x-position `k` (witness fixture). -/
def behv (k : ℚ) : Behavior := ⟨k, 0, 0, 0, 0⟩

/-- Default configuration whose novelty archive capacity is 2. -/
def cfgArch2 : Config := { defaultConfig with novelty := ⟨false, 0, 2, 5⟩ }

/-- An archive filled to the capacity of `cfgArch2`. -/
def archTwo : NoveltyArchive := ⟨[behv 1, behv 2]⟩

/-- A fresh-state car with the given fitness and brain `nn1`. -/
def carFit (f : ℚ) : Car := { defaultCar with fitness := f, brain := nn1 }

/-- Car at the origin with fitness 6 (for the sharing comparison). -/
def carP : Car := { defaultCar with fitness := 6, brain := nn1 }

/-- Car at the origin with the same position and checkpoints as `carP`
but a totally different distance traveled. -/
def carQ : Car := { defaultCar with totalDistance := 1000, brain := nn1 }

/-- Default configuration with fitness sharing enabled (sigma 10). -/
def cfgShare : Config := { defaultConfig with sharing := ⟨true, 10⟩ }

/-- Default configuration with novelty search enabled. -/
def cfgNov : Config := { defaultConfig with novelty := ⟨true, 1 / 2, 20, 5⟩ }

/-- A 20-car population, every agent at fitness 0. -/
def cars20 : List Car := List.replicate 20 (carFit 0)

/-- Run one `selection` call on a single-car population of the given
fitness and keep the resulting engine state (used to feed the engine a
sequence of best-fitness values). -/
def selStep (st : GAState) (f : ℚ) : GAState :=
  match selection defaultConfig st [carFit f] rzero with
  | some (_, _, st', _) => st'
  | none => st

/-! ### Helper lemmas: the stable sorts -/

theorem sortDescBy_perm (key : Car → ℚ) (l : List Car) :
    List.Perm (sortDescBy key l) l :=
  List.perm_insertionSort _ l

theorem sortDescBy_sorted (key : Car → ℚ) (l : List Car) :
    List.Sorted (fun a b => key b ≤ key a) (sortDescBy key l) := by
  haveI : IsTotal Car fun a b => key b ≤ key a := ⟨fun a b => (le_total (key b) (key a))⟩
  haveI : IsTrans Car fun a b => key b ≤ key a :=
    ⟨fun _ _ _ h1 h2 => le_trans h2 h1⟩
  exact List.sorted_insertionSort _ l

theorem sortDescBy_eq_self {key : Car → ℚ} {l : List Car}
    (h : ∀ a ∈ l, ∀ b ∈ l, key b ≤ key a) : sortDescBy key l = l := by
  apply List.Sorted.insertionSort_eq
  induction l with
  | nil => exact List.sorted_nil
  | cons a t ih =>
    refine List.sorted_cons.mpr ⟨?_, ih fun x hx y hy =>
      h x (List.mem_cons_of_mem _ hx) y (List.mem_cons_of_mem _ hy)⟩
    intro b hb
    exact h a (List.mem_cons_self a t) b (List.mem_cons_of_mem _ hb)

theorem sortDescBy_head_max {key : Car → ℚ} {l : List Car} {c : Car} {t : List Car}
    (h : sortDescBy key l = c :: t) : c ∈ l ∧ ∀ x ∈ l, key x ≤ key c := by
  have hperm := sortDescBy_perm key l
  rw [h] at hperm
  constructor
  · exact hperm.mem_iff.mp (List.mem_cons_self c t)
  · intro x hx
    have hx' : x ∈ c :: t := hperm.mem_iff.mpr hx
    rcases List.mem_cons.mp hx' with rfl | hxt
    · exact le_refl _
    · have hs := sortDescBy_sorted key l
      rw [h] at hs
      exact (List.sorted_cons.mp hs).1 x hxt

theorem sortDescBy_length (key : Car → ℚ) (l : List Car) :
    (sortDescBy key l).length = l.length :=
  (sortDescBy_perm key l).length_eq

/-! ### Helper lemmas: cloning a well-formed network is the identity -/

theorem copyMatrix_eq_self {rows cols : ℕ} {src : List (List ℚ)}
    (hlen : src.length = rows) (hrow : ∀ row ∈ src, row.length = cols) :
    copyMatrix rows cols src = src := by
  apply List.ext_getElem
  · simp [copyMatrix, hlen]
  · intro i h1 h2
    simp only [copyMatrix, List.getElem_map, List.getElem_range]
    apply List.ext_getElem
    · simpa using (hrow src[i] (List.getElem_mem h2)).symm
    · intro j hj1 hj2
      have hr : (jsRow src i) = src[i] := by
        simp [jsRow, List.getD_eq_getElem?_getD, List.getElem?_eq_getElem h2]
      simp only [List.getElem_map, List.getElem_range, jsGet, hr,
        List.getD_eq_getElem?_getD, List.getElem?_eq_getElem hj2, Option.getD_some]

theorem copyVec_eq_self {n : ℕ} {src : List ℚ} (hlen : src.length = n) :
    copyVec n src = src := by
  apply List.ext_getElem
  · simp [copyVec, hlen]
  · intro i h1 h2
    simp only [copyVec, List.getElem_map, List.getElem_range, jsGet,
      List.getD_eq_getElem?_getD, List.getElem?_eq_getElem h2, Option.getD_some]

theorem clone_fst_of_wf {nn : NeuralNetwork} (h : nn.WellFormed) (r : RandSrc) :
    (nn.clone r).1 = nn := by
  obtain ⟨h1, h2, h3, h4, h5, h6⟩ := h
  cases nn
  simp only [NeuralNetwork.clone, NeuralNetwork.create] at *
  congr 1 <;> first
    | exact copyMatrix_eq_self h1 h2
    | exact copyMatrix_eq_self h3 h4
    | exact copyVec_eq_self h5
    | exact copyVec_eq_self h6

/-! ### Helper lemmas: crossover entry picks -/

theorem crossIdx_some (ra rb : List ℚ) :
    ∀ (js : List ℕ) (r : RandSrc),
      ∃ l r', crossIdx (some ra) (some rb) js r = some (l, r') ∧
        l.length = js.length ∧
        ∀ k, (hk : k < l.length) → (hk' : k < js.length) →
          l[k] = jsGet ra js[k] ∨ l[k] = jsGet rb js[k] := by
  intro js
  induction js with
  | nil =>
    intro r
    exact ⟨[], r, rfl, rfl, fun k hk hk' => absurd hk' (by simp)⟩
  | cons j t ih =>
    intro r
    obtain ⟨l, r', heq, hlen, hget⟩ := ih r.next.2
    by_cases hp : r.next.1 < 1 / 2
    · refine ⟨jsGet ra j :: l, r', ?_, by simp [hlen], ?_⟩
      · simp only [crossIdx, if_pos hp, heq]
      · intro k hk hk'
        match k with
        | 0 => left; simp
        | k + 1 =>
          simpa using hget k (by simpa using hk) (by simpa using hk')
    · refine ⟨jsGet rb j :: l, r', ?_, by simp [hlen], ?_⟩
      · simp only [crossIdx, if_neg hp, heq]
      · intro k hk hk'
        match k with
        | 0 => right; simp
        | k + 1 =>
          simpa using hget k (by simpa using hk) (by simpa using hk')

theorem crossLayer_some (m1 m2 : List (List ℚ)) (b1 b2 : List ℚ) (cols : ℕ) :
    ∀ (is : List ℕ) (r : RandSrc),
      (∀ i ∈ is, i < m1.length ∧ i < m2.length) →
      ∃ w bs r', crossLayer m1 m2 b1 b2 cols is r = some (w, bs, r') ∧
        w.length = is.length ∧ bs.length = is.length ∧
        (∀ k, (hk : k < w.length) → (hk' : k < is.length) → ∀ j, j < cols →
          jsGet w[k] j = jsGet (jsRow m1 is[k]) j ∨
          jsGet w[k] j = jsGet (jsRow m2 is[k]) j) ∧
        (∀ k, (hk : k < bs.length) → (hk' : k < is.length) →
          bs[k] = jsGet b1 is[k] ∨ bs[k] = jsGet b2 is[k]) := by
  intro is
  induction is with
  | nil =>
    intro r _
    exact ⟨[], [], r, rfl, rfl, rfl, fun k hk hk' => absurd hk' (by simp),
      fun k hk hk' => absurd hk' (by simp)⟩
  | cons i t ih =>
    intro r hbound
    obtain ⟨hi1, hi2⟩ := hbound i (List.mem_cons_self i t)
    have hrow1 : m1[i]? = some m1[i] := List.getElem?_eq_getElem hi1
    have hrow2 : m2[i]? = some m2[i] := List.getElem?_eq_getElem hi2
    obtain ⟨l, rA, heqIdx, hlenIdx, hgetIdx⟩ := crossIdx_some m1[i] m2[i] (List.range cols) r
    obtain ⟨w, bs, r', heqL, hlw, hlb, hw, hb⟩ :=
      ih rA.next.2 fun x hx => hbound x (List.mem_cons_of_mem _ hx)
    refine ⟨l :: w, (if rA.next.1 < 1 / 2 then jsGet b1 i else jsGet b2 i) :: bs, r',
      ?_, by simp [hlw], by simp [hlb], ?_, ?_⟩
    · simp only [crossLayer, hrow1, hrow2, heqIdx, heqL]
    · intro k hk hk' j hj
      match k with
      | 0 =>
        have hr1 : jsRow m1 i = m1[i] := by
          simp [jsRow, List.getD_eq_getElem?_getD, hrow1]
        have hr2 : jsRow m2 i = m2[i] := by
          simp [jsRow, List.getD_eq_getElem?_getD, hrow2]
        have hj' : j < l.length := by
          simp only [hlenIdx, List.length_range]
          exact hj
        have hd := hgetIdx j hj' (by simpa using hj)
        simp only [List.getElem_cons_zero]
        rw [show jsGet l j = l[j] by
          simp [jsGet, List.getD_eq_getElem?_getD, List.getElem?_eq_getElem hj'],
          hr1, hr2]
        simpa [List.getElem_range] using hd
      | k + 1 =>
        simpa using hw k (by simpa using hk) (by simpa using hk') j hj
    · intro k hk hk'
      match k with
      | 0 =>
        simp only [List.getElem_cons_zero]
        split
        · left; rfl
        · right; rfl
      | k + 1 =>
        simpa using hb k (by simpa using hk) (by simpa using hk')

/-! ### Claim theorems -/

/-- C7: serializing a controller with `toJSON` and deserializing the
result with `fromJSON` yields a controller structurally equal to the
original — the three size integers and all four weight/bias tensors
round-trip exactly — so for every activation function and every input
vector its `predict` output is identical to the original's. -/
theorem serialization_roundtrip_exact (nn : NeuralNetwork) (r : RandSrc)
    (act : ℚ → ℚ) (inputs : List ℚ) :
    (NeuralNetwork.fromJSON nn.toJSON r).1 = nn ∧
    (NeuralNetwork.fromJSON nn.toJSON r).1.predict act inputs =
      nn.predict act inputs := by
  have h : (NeuralNetwork.fromJSON nn.toJSON r).1 = nn := by
    cases nn; rfl
  exact ⟨h, by rw [h]⟩

/-- C2 counterexample: `crossover` performs no dimension check and
never raises a DimensionMismatch.  On the concrete parents `nn1`
(1-1-1) and `nn2` (2-2-2) — whose dimensions differ — it does not fail:
it silently returns a concrete child controller with parent1's shape,
contradicting the claim that every mismatched call fails with a
DimensionMismatch error rather than returning a controller.  In the
other mismatched direction (`nnTall` with the shorter `nn1`, stream
`rhalf`), the call aborts on the JS TypeError of reading parent2's
missing weight row (`undefined[j]`) — still not a DimensionMismatch. -/
theorem crossover_mismatched_returns_child :
    nn1.hiddenSize ≠ nn2.hiddenSize ∧
    (NeuralNetwork.crossover nn1 nn2 rzero).map (fun q => q.1) =
      some ⟨1, 1, 1, [[1]], [[2]], [3], [4]⟩ ∧
    nnTall.hiddenSize ≠ nn1.hiddenSize ∧
    (NeuralNetwork.crossover nnTall nn1 rhalf).map (fun q => q.1) = none := by
  refine ⟨?_, ?_, ?_, ?_⟩ <;> with_unfolding_all decide

/-- C2 amended: `crossover` performs no dimension validation and never
raises a DimensionMismatch.  For well-formed parents whose dimensions
are componentwise at least parent1's (equal shapes, or a larger
parent2 as in the counterexample) it silently succeeds for every
random source, returning a child whose
`inputSize`/`hiddenSize`/`outputSize` are parent1's, every weight and
bias entry inside parent1's shape copied from parent1 or parent2 by an
independent 50/50 pick.  (When a pick instead reads a weight row the
selected parent lacks, the call fails with a TypeError — `undefined`
indexing, modelled by `none` — still never a DimensionMismatch; the
counterexample evaluates that path concretely.) -/
theorem crossover_shape_and_picks (p1 p2 : NeuralNetwork) (r : RandSrc)
    (h1 : p1.WellFormed) (h2 : p2.WellFormed)
    (_hin : p1.inputSize ≤ p2.inputSize) (hhid : p1.hiddenSize ≤ p2.hiddenSize)
    (hout : p1.outputSize ≤ p2.outputSize) :
    ∃ child r', NeuralNetwork.crossover p1 p2 r = some (child, r') ∧
      child.inputSize = p1.inputSize ∧ child.hiddenSize = p1.hiddenSize ∧
      child.outputSize = p1.outputSize ∧
      (∀ i j, i < p1.hiddenSize → j < p1.inputSize →
        jsGet (jsRow child.weightsInputHidden i) j =
          jsGet (jsRow p1.weightsInputHidden i) j ∨
        jsGet (jsRow child.weightsInputHidden i) j =
          jsGet (jsRow p2.weightsInputHidden i) j) ∧
      (∀ i, i < p1.hiddenSize →
        jsGet child.biasHidden i = jsGet p1.biasHidden i ∨
        jsGet child.biasHidden i = jsGet p2.biasHidden i) ∧
      (∀ i j, i < p1.outputSize → j < p1.hiddenSize →
        jsGet (jsRow child.weightsHiddenOutput i) j =
          jsGet (jsRow p1.weightsHiddenOutput i) j ∨
        jsGet (jsRow child.weightsHiddenOutput i) j =
          jsGet (jsRow p2.weightsHiddenOutput i) j) ∧
      (∀ i, i < p1.outputSize →
        jsGet child.biasOutput i = jsGet p1.biasOutput i ∨
        jsGet child.biasOutput i = jsGet p2.biasOutput i) := by
  obtain ⟨e1, _, e3, _, _, _⟩ := h1
  obtain ⟨f1, _, f3, _, _, _⟩ := h2
  have hbH : ∀ i ∈ List.range p1.hiddenSize,
      i < p1.weightsInputHidden.length ∧ i < p2.weightsInputHidden.length := by
    intro i hi
    rw [List.mem_range] at hi
    omega
  have hbO : ∀ i ∈ List.range p1.outputSize,
      i < p1.weightsHiddenOutput.length ∧ i < p2.weightsHiddenOutput.length := by
    intro i hi
    rw [List.mem_range] at hi
    omega
  obtain ⟨w1, bs1, rA, heq1, hlw1, hlb1, hw1, hb1⟩ :=
    crossLayer_some p1.weightsInputHidden p2.weightsInputHidden
      p1.biasHidden p2.biasHidden p1.inputSize (List.range p1.hiddenSize)
      (NeuralNetwork.create p1.inputSize p1.hiddenSize p1.outputSize r).2 hbH
  obtain ⟨w2, bs2, rB, heq2, hlw2, hlb2, hw2, hb2⟩ :=
    crossLayer_some p1.weightsHiddenOutput p2.weightsHiddenOutput
      p1.biasOutput p2.biasOutput p1.hiddenSize (List.range p1.outputSize) rA hbO
  refine ⟨{ (NeuralNetwork.create p1.inputSize p1.hiddenSize p1.outputSize r).1 with
      weightsInputHidden := w1, weightsHiddenOutput := w2,
      biasHidden := bs1, biasOutput := bs2 }, rB, ?_, rfl, rfl, rfl, ?_, ?_, ?_, ?_⟩
  · simp only [NeuralNetwork.crossover, heq1, heq2]
  · intro i j hi hj
    have hi' : i < w1.length := by
      simp only [hlw1, List.length_range]
      exact hi
    have hrw : jsRow w1 i = w1[i] := by
      simp [jsRow, List.getD_eq_getElem?_getD, List.getElem?_eq_getElem hi']
    have hd := hw1 i hi' (by simpa using hi) j hj
    simp only at hrw ⊢
    rw [hrw]
    simpa [List.getElem_range] using hd
  · intro i hi
    have hi' : i < bs1.length := by
      simp only [hlb1, List.length_range]
      exact hi
    have hd := hb1 i hi' (by simpa using hi)
    simp only
    rw [show jsGet bs1 i = bs1[i] by
      simp [jsGet, List.getD_eq_getElem?_getD, List.getElem?_eq_getElem hi']]
    simpa [List.getElem_range] using hd
  · intro i j hi hj
    have hi' : i < w2.length := by
      simp only [hlw2, List.length_range]
      exact hi
    have hrw : jsRow w2 i = w2[i] := by
      simp [jsRow, List.getD_eq_getElem?_getD, List.getElem?_eq_getElem hi']
    have hd := hw2 i hi' (by simpa using hi) j hj
    simp only at hrw ⊢
    rw [hrw]
    simpa [List.getElem_range] using hd
  · intro i hi
    have hi' : i < bs2.length := by
      simp only [hlb2, List.length_range]
      exact hi
    have hd := hb2 i hi' (by simpa using hi)
    simp only
    rw [show jsGet bs2 i = bs2[i] by
      simp [jsGet, List.getD_eq_getElem?_getD, List.getElem?_eq_getElem hi']]
    simpa [List.getElem_range] using hd

/-- Helper: one `maybeAdd` call keeps the archive within capacity. -/
theorem maybeAdd_length_le {cfg : Config} {arch : NoveltyArchive} {b : Behavior}
    {n : ℚ} (h : arch.behaviors.length ≤ cfg.novelty.archiveSize) :
    (NoveltyArchive.maybeAdd cfg arch b n).behaviors.length ≤ cfg.novelty.archiveSize := by
  simp only [NoveltyArchive.maybeAdd]
  split
  · split
    · rename_i hover
      simp only [List.length_tail, List.length_append, List.length_cons,
        List.length_nil] at *
      omega
    · rename_i hover
      simp only [List.length_append, List.length_cons, List.length_nil] at *
      omega
  · exact h

/-- C6: over any sequence of `maybeAdd` calls starting within capacity,
the archive never holds more than `archiveSize` entries; each call
inserts exactly when novelty exceeds the threshold (50) or the archive
holds fewer than 10 entries (appending the behavior, preserving order);
and when an insertion overflows `archiveSize`, the evicted entry is the
head of the list — the oldest — so eviction is FIFO. -/
theorem noveltyArchive_bound_and_fifo (cfg : Config) :
    (∀ (arch : NoveltyArchive) (adds : List (Behavior × ℚ)),
      arch.behaviors.length ≤ cfg.novelty.archiveSize →
      (adds.foldl (fun a p => NoveltyArchive.maybeAdd cfg a p.1 p.2) arch).behaviors.length
        ≤ cfg.novelty.archiveSize) ∧
    (∀ (arch : NoveltyArchive) (b : Behavior) (n : ℚ),
      ¬(n > 50 ∨ arch.behaviors.length < 10) →
      NoveltyArchive.maybeAdd cfg arch b n = arch) ∧
    (∀ (arch : NoveltyArchive) (b : Behavior) (n : ℚ),
      (n > 50 ∨ arch.behaviors.length < 10) →
      arch.behaviors.length + 1 ≤ cfg.novelty.archiveSize →
      (NoveltyArchive.maybeAdd cfg arch b n).behaviors = arch.behaviors ++ [b]) ∧
    (∀ (arch : NoveltyArchive) (b : Behavior) (n : ℚ),
      (n > 50 ∨ arch.behaviors.length < 10) →
      arch.behaviors.length = cfg.novelty.archiveSize → 1 ≤ cfg.novelty.archiveSize →
      (NoveltyArchive.maybeAdd cfg arch b n).behaviors = arch.behaviors.tail ++ [b]) := by
  refine ⟨?_, ?_, ?_, ?_⟩
  · intro arch adds
    induction adds generalizing arch with
    | nil => intro h; exact h
    | cons p t ih =>
      intro h
      exact ih _ (maybeAdd_length_le h)
  · intro arch b n h
    simp only [NoveltyArchive.maybeAdd, if_neg h]
  · intro arch b n h hroom
    have hcond : ¬(arch.behaviors ++ [b]).length > cfg.novelty.archiveSize := by
      simp only [List.length_append, List.length_cons, List.length_nil]
      omega
    simp only [NoveltyArchive.maybeAdd, if_pos h, if_neg hcond]
  · intro arch b n h hfull hpos
    have hne : arch.behaviors ≠ [] := by
      intro hnil
      rw [hnil] at hfull
      simp only [List.length_nil] at hfull
      omega
    have hcond : (arch.behaviors ++ [b]).length > cfg.novelty.archiveSize := by
      simp only [List.length_append, List.length_cons, List.length_nil]
      omega
    simp only [NoveltyArchive.maybeAdd, if_pos h, if_pos hcond]
    exact List.tail_append_of_ne_nil hne

/-- C6 witness: the FIFO clause applied to the capacity-2 archive
`archTwo`: admitting a new behavior evicts the oldest entry. -/
theorem noveltyArchive_bound_and_fifo_witness :
    (((60 : ℚ) > 50 ∨ archTwo.behaviors.length < 10) ∧
      archTwo.behaviors.length = cfgArch2.novelty.archiveSize ∧
      1 ≤ cfgArch2.novelty.archiveSize) ∧
    (NoveltyArchive.maybeAdd cfgArch2 archTwo (behv 3) 60).behaviors =
      archTwo.behaviors.tail ++ [behv 3] :=
  ⟨⟨Or.inr (by with_unfolding_all decide), by with_unfolding_all decide,
    by with_unfolding_all decide⟩,
    (noveltyArchive_bound_and_fifo cfgArch2).2.2.2 archTwo (behv 3) 60
      (Or.inr (by with_unfolding_all decide)) (by with_unfolding_all decide)
      (by with_unfolding_all decide)⟩

/-- Helper: `sortAsc` is a permutation of its input. -/
theorem sortAsc_perm (l : List ℚ) : List.Perm (sortAsc l) l :=
  List.perm_insertionSort _ l

/-- Helper: `sortAsc` sorts ascending. -/
theorem sortAsc_sorted (l : List ℚ) : List.Sorted (· ≤ ·) (sortAsc l) :=
  List.sorted_insertionSort _ l

/-- Helper: `sortAsc` preserves length. -/
theorem sortAsc_length (l : List ℚ) : (sortAsc l).length = l.length :=
  (sortAsc_perm l).length_eq

/-- Helper: in a sorted list every taken prefix element is bounded by
every dropped suffix element. -/
theorem sorted_take_le_drop {l : List ℚ} (h : List.Sorted (· ≤ ·) l) (k : ℕ) :
    ∀ x ∈ l.take k, ∀ y ∈ l.drop k, x ≤ y := by
  have hp : List.Pairwise (· ≤ ·) (l.take k ++ l.drop k) := by
    rw [List.take_append_drop k l]
    exact h
  exact fun x hx y hy => (List.pairwise_append.mp hp).2.2 x hx y hy

/-- C8: `calculateNovelty` returns the fixed constant 1000 on an empty
archive; on a nonempty archive it returns the average of the first
`k = min(kNeighbors, archive size)` entries of the ascending-sorted
list of distances to the archived behaviors — the `k` smallest
distances (every taken distance is bounded by every dropped one). -/
theorem calculateNovelty_knn_spec (cfg : Config) (a : NoveltyArchive) (b : Behavior) :
    (a.behaviors = [] → NoveltyArchive.calculateNovelty cfg a b = 1000) ∧
    (a.behaviors ≠ [] → ∃ ds : List ℚ,
      List.Perm ds (a.behaviors.map fun bb => NoveltyArchive.behaviorDistance b bb) ∧
      List.Sorted (· ≤ ·) ds ∧
      (∀ x ∈ ds.take (min cfg.novelty.kNeighbors a.behaviors.length),
        ∀ y ∈ ds.drop (min cfg.novelty.kNeighbors a.behaviors.length), x ≤ y) ∧
      NoveltyArchive.calculateNovelty cfg a b =
        ((ds.take (min cfg.novelty.kNeighbors a.behaviors.length)).foldl (· + ·) 0) /
          ((min cfg.novelty.kNeighbors a.behaviors.length : ℕ) : ℚ)) := by
  constructor
  · intro he
    simp only [NoveltyArchive.calculateNovelty, if_pos he]
  · intro hne
    refine ⟨sortAsc (a.behaviors.map fun bb => NoveltyArchive.behaviorDistance b bb),
      sortAsc_perm _, sortAsc_sorted _, sorted_take_le_drop (sortAsc_sorted _) _, ?_⟩
    have hlen : (sortAsc (a.behaviors.map fun bb =>
        NoveltyArchive.behaviorDistance b bb)).length = a.behaviors.length := by
      rw [sortAsc_length, List.length_map]
    simp only [NoveltyArchive.calculateNovelty, if_neg hne, hlen]

/-- C8 witness: the nonempty-archive clause applied to the concrete
archive `archTwo`. -/
theorem calculateNovelty_knn_spec_witness :
    archTwo.behaviors ≠ [] ∧ (∃ ds : List ℚ,
      List.Perm ds (archTwo.behaviors.map fun bb =>
        NoveltyArchive.behaviorDistance (behv 3) bb) ∧
      List.Sorted (· ≤ ·) ds ∧
      (∀ x ∈ ds.take (min defaultConfig.novelty.kNeighbors archTwo.behaviors.length),
        ∀ y ∈ ds.drop (min defaultConfig.novelty.kNeighbors archTwo.behaviors.length), x ≤ y) ∧
      NoveltyArchive.calculateNovelty defaultConfig archTwo (behv 3) =
        ((ds.take (min defaultConfig.novelty.kNeighbors archTwo.behaviors.length)).foldl
            (· + ·) 0) /
          ((min defaultConfig.novelty.kNeighbors archTwo.behaviors.length : ℕ) : ℚ)) :=
  ⟨by with_unfolding_all decide,
    (calculateNovelty_knn_spec defaultConfig archTwo (behv 3)).2
      (by with_unfolding_all decide)⟩

/-- C2 witness: the amended crossover theorem applied to the concrete
mismatched parents `nn1` (1-1-1) and the larger `nn2` (2-2-2). -/
theorem crossover_shape_and_picks_witness :
    (nn1.WellFormed ∧ nn2.WellFormed ∧ nn1.inputSize ≤ nn2.inputSize ∧
      nn1.hiddenSize ≤ nn2.hiddenSize ∧ nn1.outputSize ≤ nn2.outputSize) ∧
    (∃ child r', NeuralNetwork.crossover nn1 nn2 rzero = some (child, r') ∧
      child.inputSize = nn1.inputSize ∧ child.hiddenSize = nn1.hiddenSize ∧
      child.outputSize = nn1.outputSize ∧
      (∀ i j, i < nn1.hiddenSize → j < nn1.inputSize →
        jsGet (jsRow child.weightsInputHidden i) j =
          jsGet (jsRow nn1.weightsInputHidden i) j ∨
        jsGet (jsRow child.weightsInputHidden i) j =
          jsGet (jsRow nn2.weightsInputHidden i) j) ∧
      (∀ i, i < nn1.hiddenSize →
        jsGet child.biasHidden i = jsGet nn1.biasHidden i ∨
        jsGet child.biasHidden i = jsGet nn2.biasHidden i) ∧
      (∀ i j, i < nn1.outputSize → j < nn1.hiddenSize →
        jsGet (jsRow child.weightsHiddenOutput i) j =
          jsGet (jsRow nn1.weightsHiddenOutput i) j ∨
        jsGet (jsRow child.weightsHiddenOutput i) j =
          jsGet (jsRow nn2.weightsHiddenOutput i) j) ∧
      (∀ i, i < nn1.outputSize →
        jsGet child.biasOutput i = jsGet nn1.biasOutput i ∨
        jsGet child.biasOutput i = jsGet nn2.biasOutput i)) :=
  ⟨⟨by decide, by decide, by decide, by decide, by decide⟩,
    crossover_shape_and_picks nn1 nn2 rzero (by decide) (by decide)
      (by decide) (by decide) (by decide)⟩

/-! ### Helper lemmas: what the scoring passes do to the population -/

theorem applyFitnessSharing_map_core (cfg : Config) (cars : List Car) :
    (applyFitnessSharing cfg cars).map Car.core = cars.map Car.core := by
  unfold applyFitnessSharing
  split
  · apply List.ext_getElem
    · simp
    · intro i h1 h2
      simp only [List.length_map, List.length_range] at h1
      simp only [List.getElem_map, List.getElem_range, Car.core]
      have : cars.getD i defaultCar = cars[i] := by
        simp [List.getD_eq_getElem?_getD, List.getElem?_eq_getElem (by simpa using h1)]
      rw [this]
  · rfl

theorem applyFitnessSharing_length (cfg : Config) (cars : List Car) :
    (applyFitnessSharing cfg cars).length = cars.length := by
  have := congrArg List.length (applyFitnessSharing_map_core cfg cars)
  simpa using this

theorem applyFitnessSharing_map_desc (cfg : Config) (cars : List Car) :
    (applyFitnessSharing cfg cars).map NoveltyArchive.getBehaviorDescriptor =
      cars.map NoveltyArchive.getBehaviorDescriptor := by
  have h := congrArg (List.map fun cc : CoreCar => Behavior.mk cc.x cc.y
    cc.checkpointsPassed cc.totalDistance cc.avgSpeed)
    (applyFitnessSharing_map_core cfg cars)
  simpa [Function.comp_def, Car.core, NoveltyArchive.getBehaviorDescriptor] using h

theorem applyNoveltyLoop_map_core (cfg : Config) :
    ∀ (cars : List Car) (a : NoveltyArchive),
      (applyNoveltyLoop cfg cars a).1.map Car.core = cars.map Car.core := by
  intro cars
  induction cars with
  | nil => intro a; rfl
  | cons c t ih =>
    intro a
    simp only [applyNoveltyLoop, List.map_cons, ih, List.cons.injEq, and_true]
    rfl

theorem applyNoveltyScores_map_core (cfg : Config) (arch : NoveltyArchive)
    (cars : List Car) :
    (applyNoveltyScores cfg arch cars).1.map Car.core = cars.map Car.core := by
  unfold applyNoveltyScores
  split
  · exact applyNoveltyLoop_map_core cfg cars arch
  · rfl

theorem applyNoveltyScores_length (cfg : Config) (arch : NoveltyArchive)
    (cars : List Car) :
    (applyNoveltyScores cfg arch cars).1.length = cars.length := by
  have := congrArg List.length (applyNoveltyScores_map_core cfg arch cars)
  simpa using this

/-! ### Helper lemmas: the shape of a successful `selection` call -/

theorem selection_unfold (cfg : Config) (st : GAState) (cars : List Car) (r : RandSrc)
    (hne : cars ≠ []) :
    ∃ best restS,
      sortDescBy (sortKeyOf cfg)
        (applyNoveltyScores cfg st.noveltyArchive (applyFitnessSharing cfg cars)).1 =
        best :: restS ∧
      selection cfg st cars r = some
        ((applyNoveltyScores cfg st.noveltyArchive (applyFitnessSharing cfg cars)).1,
          (best :: restS).take (eliteCountOf st),
          (selectionRecords st
            (applyNoveltyScores cfg st.noveltyArchive (applyFitnessSharing cfg cars)).2
            (if (applyNoveltyScores cfg st.noveltyArchive (applyFitnessSharing cfg cars)).1.length < 2
              then st.diversity
              else diversityValue
                (applyNoveltyScores cfg st.noveltyArchive (applyFitnessSharing cfg cars)).1)
            best r).1,
          (selectionRecords st
            (applyNoveltyScores cfg st.noveltyArchive (applyFitnessSharing cfg cars)).2
            (if (applyNoveltyScores cfg st.noveltyArchive (applyFitnessSharing cfg cars)).1.length < 2
              then st.diversity
              else diversityValue
                (applyNoveltyScores cfg st.noveltyArchive (applyFitnessSharing cfg cars)).1)
            best r).2) := by
  have hlen : (sortDescBy (sortKeyOf cfg)
      (applyNoveltyScores cfg st.noveltyArchive (applyFitnessSharing cfg cars)).1).length =
      cars.length := by
    rw [sortDescBy_length, applyNoveltyScores_length, applyFitnessSharing_length]
  have hne' : sortDescBy (sortKeyOf cfg)
      (applyNoveltyScores cfg st.noveltyArchive (applyFitnessSharing cfg cars)).1 ≠ [] := by
    intro hnil
    rw [hnil] at hlen
    exact hne (List.length_eq_zero.mp hlen.symm)
  match hsort : sortDescBy (sortKeyOf cfg)
      (applyNoveltyScores cfg st.noveltyArchive (applyFitnessSharing cfg cars)).1 with
  | [] => exact absurd hsort hne'
  | best :: restS =>
    refine ⟨best, restS, rfl, ?_⟩
    simp only [selection, hsort]

theorem selectionRecords_generation (st : GAState) (a : NoveltyArchive) (d : ℚ)
    (best : Car) (r : RandSrc) :
    (selectionRecords st a d best r).1.generation = st.generation := by
  simp only [selectionRecords]

theorem selectionRecords_populationSize (st : GAState) (a : NoveltyArchive) (d : ℚ)
    (best : Car) (r : RandSrc) :
    (selectionRecords st a d best r).1.populationSize = st.populationSize := by
  simp only [selectionRecords]

theorem selectionRecords_stagnation (st : GAState) (a : NoveltyArchive) (d : ℚ)
    (best : Car) (r : RandSrc) :
    (selectionRecords st a d best r).1.stagnationCounter =
      (if best.fitness ≤ st.lastBestFitness * (101 / 100)
        then st.stagnationCounter + 1 else 0) ∧
    (selectionRecords st a d best r).1.lastBestFitness = best.fitness := by
  constructor <;> simp only [selectionRecords]

theorem selectionRecords_bestFitness (st : GAState) (a : NoveltyArchive) (d : ℚ)
    (best : Car) (r : RandSrc) :
    (selectionRecords st a d best r).1.bestFitness =
      (if st.bestFitness < best.fitness then best.fitness else st.bestFitness) := by
  by_cases hc : st.bestFitness < best.fitness <;>
    simp only [selectionRecords, if_pos, if_neg, hc, if_true, if_false]

theorem selectionRecords_archive (st : GAState) (a : NoveltyArchive) (d : ℚ)
    (best : Car) (r : RandSrc) :
    (selectionRecords st a d best r).1.noveltyArchive = a := by
  simp only [selectionRecords]

theorem selection_mono_step (cfg : Config) (st : GAState) (cars : List Car)
    (r : RandSrc) (hne : cars ≠ []) :
    ∃ u e st' r', selection cfg st cars r = some (u, e, st', r') ∧
      st.bestFitness ≤ st'.bestFitness := by
  obtain ⟨best, restS, hsort, hsel⟩ := selection_unfold cfg st cars r hne
  refine ⟨_, _, _, _, hsel, ?_⟩
  rw [selectionRecords_bestFitness]
  split
  · next hc => exact le_of_lt hc
  · exact le_refl _

/-- C9: the engine's best-ever fitness record is non-decreasing across
any sequence of `selection` calls: running any list of nonempty
populations through `selection` succeeds and yields a state whose
`bestFitness` is at least the starting one. -/
theorem bestFitness_monotone (cfg : Config) (pops : List (List Car))
    (st : GAState) (r : RandSrc) (hne : ∀ p ∈ pops, p ≠ []) :
    ∃ st' r', runSelections cfg pops st r = some (st', r') ∧
      st.bestFitness ≤ st'.bestFitness := by
  induction pops generalizing st r with
  | nil => exact ⟨st, r, rfl, le_refl _⟩
  | cons cars ps ih =>
    obtain ⟨u, e, st1, r1, hsel, hmono⟩ :=
      selection_mono_step cfg st cars r (hne cars (List.mem_cons_self cars ps))
    obtain ⟨st', r', hrun, hmono2⟩ :=
      ih st1 r1 (fun p hp => hne p (List.mem_cons_of_mem _ hp))
    refine ⟨st', r', ?_, le_trans hmono hmono2⟩
    simp only [runSelections, hsel]
    exact hrun

/-- C9 witness: one selection call on a singleton population from a
fresh engine. -/
theorem bestFitness_monotone_witness :
    (∀ p ∈ [[carFit 0]], p ≠ []) ∧
    (∃ st' r', runSelections defaultConfig [[carFit 0]] (GAState.init 1) rzero =
        some (st', r') ∧ (GAState.init 1).bestFitness ≤ st'.bestFitness) :=
  ⟨by with_unfolding_all decide,
    bestFitness_monotone defaultConfig [[carFit 0]] (GAState.init 1) rzero
      (by with_unfolding_all decide)⟩

/-- C10: `selection` never reorders, drops or replaces the caller's
agents: it succeeds on every nonempty population and the updated
population it produces has the same length and, position by position,
the same non-derived fields (`Car.core`: position, angle, liveness,
fitness, distances, checkpoints, laps, lap time, speed, best flag,
color and brain) as the input — only the derived score fields
`sharedFitness`, `novelty` and `combinedScore` are written. -/
theorem selection_preserves_population (cfg : Config) (st : GAState)
    (cars : List Car) (r : RandSrc) (hne : cars ≠ []) :
    ∃ u e st' r', selection cfg st cars r = some (u, e, st', r') ∧
      u.length = cars.length ∧ u.map Car.core = cars.map Car.core := by
  obtain ⟨best, restS, hsort, hsel⟩ := selection_unfold cfg st cars r hne
  refine ⟨_, _, _, _, hsel, ?_, ?_⟩
  · rw [applyNoveltyScores_length, applyFitnessSharing_length]
  · rw [applyNoveltyScores_map_core, applyFitnessSharing_map_core]

/-- C10 witness: the frame property on a concrete two-car population. -/
theorem selection_preserves_population_witness :
    ([carP, carQ] ≠ []) ∧
    (∃ u e st' r', selection cfgShare (GAState.init 2) [carP, carQ] rzero =
        some (u, e, st', r') ∧
      u.length = [carP, carQ].length ∧
      u.map Car.core = [carP, carQ].map Car.core) :=
  ⟨by with_unfolding_all decide,
    selection_preserves_population cfgShare (GAState.init 2) [carP, carQ] rzero
      (by with_unfolding_all decide)⟩

/-- C4 counterexample: the claim fails in both directions on the code.
Feeding the non-increasing best-fitness sequence 100, 100, 100, 100,
100 to a fresh engine leaves the stagnation counter at 4 after 5 calls,
not 5 (the first call resets the counter because 100 exceeds
1.01 × the initial recorded best of 0); and feeding the strictly
increasing sequence 100, 100.5 leaves the counter at 1 after the second
call instead of resetting it to 0, because the code treats any best
fitness within 1.01 × the previous one as stagnation. -/
theorem stagnation_claim_counterexample :
    (([100, 100, 100, 100, 100] : List ℚ).foldl selStep
      (GAState.init 1)).stagnationCounter = 4 ∧
    (([100, 201 / 2] : List ℚ).foldl selStep (GAState.init 1)).stagnationCounter = 1 := by
  constructor
  · with_unfolding_all decide
  · with_unfolding_all decide

/-- C4 amended: each `selection` call (novelty and sharing disabled)
sets the stagnation counter by comparing the population's best raw
fitness `b` with 1.01 × the previously recorded best `p`: the counter
increments when `b ≤ 1.01 · p` and resets to 0 otherwise, and the
recorded last-best becomes `b`.  Hence a non-increasing nonnegative
sequence whose first value does not exceed the recorded last-best
increments the counter once per call (reaching 5 after 5 calls from 0),
while a strictly increasing sequence resets the counter only when each
step improves by more than 1%. -/
theorem selection_stagnation_rule (cfg : Config) (st : GAState) (cars : List Car)
    (r : RandSrc) (hnov : cfg.novelty.enabled = false)
    (hsh : cfg.sharing.enabled = false) (hne : cars ≠ []) :
    ∃ u e st' r', selection cfg st cars r = some (u, e, st', r') ∧
      ∃ best, best ∈ cars ∧ (∀ x ∈ cars, x.fitness ≤ best.fitness) ∧
        st'.stagnationCounter =
          (if best.fitness ≤ st.lastBestFitness * (101 / 100)
            then st.stagnationCounter + 1 else 0) ∧
        st'.lastBestFitness = best.fitness := by
  have hsh' : applyFitnessSharing cfg cars = cars := by
    simp [applyFitnessSharing, hsh]
  have hnov' : applyNoveltyScores cfg st.noveltyArchive cars =
      (cars, st.noveltyArchive) := by
    simp [applyNoveltyScores, hnov]
  have hkey : sortKeyOf cfg = fun c => c.fitness := by
    simp [sortKeyOf, hnov, hsh]
  obtain ⟨best, restS, hsort, hsel⟩ := selection_unfold cfg st cars r hne
  rw [hsh', hnov'] at hsort hsel
  simp only at hsort hsel
  rw [hkey] at hsort
  obtain ⟨hmem, hmax⟩ := sortDescBy_head_max hsort
  exact ⟨_, _, _, _, hsel, best, hmem, hmax,
    (selectionRecords_stagnation st _ _ best r).1,
    (selectionRecords_stagnation st _ _ best r).2⟩

/-- C4 witness: the amended stagnation rule on a concrete
single-car population. -/
theorem selection_stagnation_rule_witness :
    (defaultConfig.novelty.enabled = false ∧ defaultConfig.sharing.enabled = false ∧
      [carFit 100] ≠ []) ∧
    (∃ u e st' r', selection defaultConfig (GAState.init 1) [carFit 100] rzero =
        some (u, e, st', r') ∧
      ∃ best, best ∈ [carFit 100] ∧ (∀ x ∈ [carFit 100], x.fitness ≤ best.fitness) ∧
        st'.stagnationCounter =
          (if best.fitness ≤ (GAState.init 1).lastBestFitness * (101 / 100)
            then (GAState.init 1).stagnationCounter + 1 else 0) ∧
        st'.lastBestFitness = best.fitness) :=
  ⟨⟨by decide, by decide, by with_unfolding_all decide⟩,
    selection_stagnation_rule defaultConfig (GAState.init 1) [carFit 100] rzero
      (by decide) (by decide) (by with_unfolding_all decide)⟩

/-- Helper: `maybeAdd` with bootstrap room and spare capacity appends
the behavior. -/
theorem maybeAdd_append_of_room {cfg : Config} {arch : NoveltyArchive}
    {b : Behavior} {n : ℚ} (hroom : arch.behaviors.length < 10)
    (hA : arch.behaviors.length + 1 ≤ cfg.novelty.archiveSize) :
    (NoveltyArchive.maybeAdd cfg arch b n).behaviors = arch.behaviors ++ [b] := by
  have h : n > 50 ∨ arch.behaviors.length < 10 := Or.inr hroom
  have hcond : ¬(arch.behaviors ++ [b]).length > cfg.novelty.archiveSize := by
    simp only [List.length_append, List.length_cons, List.length_nil]
    omega
  simp only [NoveltyArchive.maybeAdd, if_pos h, if_neg hcond]

/-- Helper: with room for the whole population, the novelty loop
appends every car's behavior descriptor to the archive, in population
order. -/
theorem applyNoveltyLoop_archive (cfg : Config) :
    ∀ (cars : List Car) (arch : NoveltyArchive),
      arch.behaviors.length + cars.length ≤ 10 →
      arch.behaviors.length + cars.length ≤ cfg.novelty.archiveSize →
      (applyNoveltyLoop cfg cars arch).2.behaviors =
        arch.behaviors ++ cars.map NoveltyArchive.getBehaviorDescriptor := by
  intro cars
  induction cars with
  | nil => intro arch _ _; simp [applyNoveltyLoop]
  | cons c t ih =>
    intro arch h10 hA
    simp only [List.length_cons] at h10 hA
    have hstep : (NoveltyArchive.maybeAdd cfg arch
        (NoveltyArchive.getBehaviorDescriptor c)
        (NoveltyArchive.calculateNovelty cfg arch
          (NoveltyArchive.getBehaviorDescriptor c))).behaviors =
        arch.behaviors ++ [NoveltyArchive.getBehaviorDescriptor c] :=
      maybeAdd_append_of_room (by omega) (by omega)
    have hlen : (NoveltyArchive.maybeAdd cfg arch
        (NoveltyArchive.getBehaviorDescriptor c)
        (NoveltyArchive.calculateNovelty cfg arch
          (NoveltyArchive.getBehaviorDescriptor c))).behaviors.length =
        arch.behaviors.length + 1 := by
      rw [hstep]
      simp
    simp only [applyNoveltyLoop]
    rw [ih _ (by omega) (by omega), hstep]
    simp [NoveltyArchive.getBehaviorDescriptor]

/-- C3 counterexample: with novelty search enabled, one `selection`
call on a two-car population starting from an empty archive adds TWO
behavior descriptors to the archive (one per individual, offered inside
the scoring loop), not exactly one (the winner's) as the claim
states. -/
theorem novelty_winner_only_counterexample :
    (selection cfgNov (GAState.init 2) [carP, carQ] rzero).map
      (fun x => x.2.2.1.noveltyArchive.behaviors.length) = some 2 := by
  with_unfolding_all decide

/-- C3 amended: with novelty search enabled, every individual's
behavior descriptor is offered to the novelty archive during
`selection`, in population order, each tested with its own novelty
score — not only the winner's.  In particular, whenever the archive has
bootstrap room and spare capacity for the whole population, all
descriptors are admitted and appended in order. -/
theorem selection_offers_all_descriptors (cfg : Config) (st : GAState)
    (cars : List Car) (r : RandSrc) (hnov : cfg.novelty.enabled = true)
    (hne : cars ≠ [])
    (h10 : st.noveltyArchive.behaviors.length + cars.length ≤ 10)
    (hA : st.noveltyArchive.behaviors.length + cars.length ≤ cfg.novelty.archiveSize) :
    ∃ u e st' r', selection cfg st cars r = some (u, e, st', r') ∧
      st'.noveltyArchive.behaviors =
        st.noveltyArchive.behaviors ++
          cars.map NoveltyArchive.getBehaviorDescriptor := by
  obtain ⟨best, restS, hsort, hsel⟩ := selection_unfold cfg st cars r hne
  refine ⟨_, _, _, _, hsel, ?_⟩
  rw [selectionRecords_archive]
  have harch : (applyNoveltyScores cfg st.noveltyArchive (applyFitnessSharing cfg cars)).2 =
      (applyNoveltyLoop cfg (applyFitnessSharing cfg cars) st.noveltyArchive).2 := by
    simp [applyNoveltyScores, hnov]
  rw [harch, applyNoveltyLoop_archive cfg _ _
      (by rw [applyFitnessSharing_length]; exact h10)
      (by rw [applyFitnessSharing_length]; exact hA),
    applyFitnessSharing_map_desc]

/-- C3 witness: the amended novelty-offering rule on the concrete
two-car population (both descriptors appended from an empty archive). -/
theorem selection_offers_all_descriptors_witness :
    (cfgNov.novelty.enabled = true ∧ [carP, carQ] ≠ [] ∧
      (GAState.init 2).noveltyArchive.behaviors.length + [carP, carQ].length ≤ 10 ∧
      (GAState.init 2).noveltyArchive.behaviors.length + [carP, carQ].length ≤
        cfgNov.novelty.archiveSize) ∧
    (∃ u e st' r', selection cfgNov (GAState.init 2) [carP, carQ] rzero =
        some (u, e, st', r') ∧
      st'.noveltyArchive.behaviors =
        (GAState.init 2).noveltyArchive.behaviors ++
          [carP, carQ].map NoveltyArchive.getBehaviorDescriptor) :=
  ⟨⟨by decide, by with_unfolding_all decide, by decide, by decide⟩,
    selection_offers_all_descriptors cfgNov (GAState.init 2) [carP, carQ] rzero
      (by decide) (by with_unfolding_all decide) (by decide) (by decide)⟩

/-- Helper: a conditional accumulating fold is the sum of the guarded
terms. -/
theorem foldl_ite_add (P : ℕ → Prop) [DecidablePred P] (f : ℕ → ℚ) :
    ∀ (l : List ℕ) (a : ℚ),
      l.foldl (fun s j => if P j then s + f j else s) a =
        a + (l.map fun j => if P j then f j else 0).sum := by
  intro l
  induction l with
  | nil => intro a; simp
  | cons x t ih =>
    intro a
    simp only [List.foldl_cons, List.map_cons, List.sum_cons]
    by_cases h : P x
    · rw [if_pos h, if_pos h, ih]
      ring
    · rw [if_neg h, if_neg h, ih]
      ring

/-- Helper: the sharing sum is the sum of the sharing function over all
other indices. -/
theorem sharingSumFor_eq_sum (cfg : Config) (cars : List Car) (i : ℕ) :
    sharingSumFor cfg cars i =
      ∑ j ∈ Finset.range cars.length \ {i},
        (if gaBehaviorDistance (cars.getD i defaultCar) (cars.getD j defaultCar) <
            cfg.sharing.sigma
         then 1 - gaBehaviorDistance (cars.getD i defaultCar) (cars.getD j defaultCar) /
            cfg.sharing.sigma
         else 0) := by
  unfold sharingSumFor
  rw [foldl_ite_add (fun j => gaBehaviorDistance (cars.getD i defaultCar)
      (cars.getD j defaultCar) < cfg.sharing.sigma), zero_add]
  have hset : Finset.range cars.length \ {i} =
      (Finset.range cars.length).filter (· ≠ i) := by
    rw [Finset.filter_ne', Finset.erase_eq]
  rw [hset]
  rfl

/-- C5 counterexample: `applyFitnessSharing` does not use the
`NoveltyArchive`'s weighted behavior distance.  The cars `carP` and
`carQ` share position and checkpoint count but differ in distance
traveled by 1000: the engine's `gaBehaviorDistance` is 0 (no
distance-traveled term) while the archive's measure is 100, so sharing
with sigma 10 divides `carP`'s fitness 6 down to 3, whereas the
spec's formula (`specSharedFitness`, archive measure ≥ sigma) leaves it
at 6. -/
theorem sharing_distance_mismatch_counterexample :
    (applyFitnessSharing cfgShare [carP, carQ]).map Car.sharedFitness = [3, 0] ∧
    specSharedFitness cfgShare [carP, carQ] 0 = 6 ∧ (3 : ℚ) ≠ 6 ∧
    gaBehaviorDistance carP carQ ≠
      NoveltyArchive.behaviorDistance (NoveltyArchive.getBehaviorDescriptor carP)
        (NoveltyArchive.getBehaviorDescriptor carQ) := by
  refine ⟨?_, ?_, ?_, ?_⟩ <;> with_unfolding_all decide

/-- C5 amended: when sharing is enabled, `applyFitnessSharing` sets,
for every agent, `sharedFitness = fitness / (1 + Σ)` where `Σ` sums
`1 - d/sigma` over all other agents with `d < sigma` — but `d` is the
engine's own behavior distance (Euclidean position distance plus
100 × checkpoint difference, with NO distance-traveled term; it is not
the `NoveltyArchive`'s weighted measure) — and leaves every other field
unchanged; when sharing is disabled the call is a no-op. -/
theorem fitness_sharing_formula (cfg : Config) (cars : List Car) :
    (cfg.sharing.enabled = false → applyFitnessSharing cfg cars = cars) ∧
    (cfg.sharing.enabled = true →
      (applyFitnessSharing cfg cars).length = cars.length ∧
      ∀ i, i < cars.length →
        (applyFitnessSharing cfg cars).getD i defaultCar =
          { cars.getD i defaultCar with
            sharedFitness := (cars.getD i defaultCar).fitness /
              (1 + ∑ j ∈ Finset.range cars.length \ {i},
                (if gaBehaviorDistance (cars.getD i defaultCar)
                    (cars.getD j defaultCar) < cfg.sharing.sigma
                 then 1 - gaBehaviorDistance (cars.getD i defaultCar)
                    (cars.getD j defaultCar) / cfg.sharing.sigma
                 else 0)) }) := by
  constructor
  · intro h
    simp [applyFitnessSharing, h]
  · intro h
    refine ⟨applyFitnessSharing_length cfg cars, ?_⟩
    intro i hi
    have hmap : applyFitnessSharing cfg cars = (List.range cars.length).map fun k =>
        { cars.getD k defaultCar with
          sharedFitness := (cars.getD k defaultCar).fitness /
            (1 + sharingSumFor cfg cars k) } := by
      simp [applyFitnessSharing, h]
    rw [hmap]
    have hlt : i < ((List.range cars.length).map fun k =>
        { cars.getD k defaultCar with
          sharedFitness := (cars.getD k defaultCar).fitness /
            (1 + sharingSumFor cfg cars k) }).length := by
      simpa using hi
    rw [List.getD_eq_getElem?_getD, List.getElem?_eq_getElem hlt, Option.getD_some]
    simp only [List.getElem_map, List.getElem_range]
    rw [sharingSumFor_eq_sum]

/-- C5 witness: the amended sharing formula evaluated at index 0 of the
concrete two-car population. -/
theorem fitness_sharing_formula_witness :
    (cfgShare.sharing.enabled = true ∧ 0 < [carP, carQ].length) ∧
    ((applyFitnessSharing cfgShare [carP, carQ]).length = [carP, carQ].length ∧
      (applyFitnessSharing cfgShare [carP, carQ]).getD 0 defaultCar =
        { [carP, carQ].getD 0 defaultCar with
          sharedFitness := ([carP, carQ].getD 0 defaultCar).fitness /
            (1 + ∑ j ∈ Finset.range [carP, carQ].length \ {0},
              (if gaBehaviorDistance ([carP, carQ].getD 0 defaultCar)
                  ([carP, carQ].getD j defaultCar) < cfgShare.sharing.sigma
               then 1 - gaBehaviorDistance ([carP, carQ].getD 0 defaultCar)
                  ([carP, carQ].getD j defaultCar) / cfgShare.sharing.sigma
               else 0)) }) :=
  ⟨⟨by decide, by decide⟩,
    ((fitness_sharing_formula cfgShare [carP, carQ]).2 (by decide)).1,
    ((fitness_sharing_formula cfgShare [carP, carQ]).2 (by decide)).2 0 (by decide)⟩

/-! ### Helper lemmas for the concrete `evolve` scenario -/

theorem jsRandom_nonneg (q : ℚ) : 0 ≤ jsRandom q := by
  unfold jsRandom
  split
  · next h => exact h.1
  · exact le_refl 0

theorem next_fst_nonneg (r : RandSrc) : 0 ≤ r.next.1 :=
  jsRandom_nonneg _

theorem evolveChild_some_of_rate_nonpos (cfg : Config) (st : GAState)
    (sx sy sa : ℚ) (elite : List Car) (mr : ℚ) (r : RandSrc)
    (h : cfg.genetic.crossoverRate ≤ 0) :
    ∃ car r', evolveChild cfg st sx sy sa elite mr r = some (car, r') := by
  have hv : ¬ (tournamentSelect cfg elite
      (tournamentSelect cfg elite r).2).2.next.1 < cfg.genetic.crossoverRate :=
    fun hlt => absurd (lt_of_lt_of_le hlt h) (not_lt.mpr (next_fst_nonneg _))
  unfold evolveChild
  simp only [if_neg hv]
  exact ⟨_, _, rfl⟩

theorem evolveFill_succ (cfg : Config) (st : GAState) (sx sy sa : ℚ)
    (elite : List Car) (mr : ℚ) (n : ℕ) (r : RandSrc) :
    evolveFill cfg st sx sy sa elite mr (n + 1) r =
      match evolveChild cfg st sx sy sa elite mr r with
      | none => none
      | some car =>
        match evolveFill cfg st sx sy sa elite mr n car.2 with
        | none => none
        | some rest => some (car.1 :: rest.1, rest.2) := rfl

theorem evolveFill_some_of_rate_nonpos (cfg : Config) (st : GAState)
    (sx sy sa : ℚ) (elite : List Car) (mr : ℚ)
    (h : cfg.genetic.crossoverRate ≤ 0) :
    ∀ (n : ℕ) (r : RandSrc),
      ∃ l r', evolveFill cfg st sx sy sa elite mr n r = some (l, r') ∧
        l.length = n := by
  intro n
  induction n with
  | zero => intro r; exact ⟨[], r, rfl, rfl⟩
  | succ k ih =>
    intro r
    obtain ⟨car, r1, hc⟩ := evolveChild_some_of_rate_nonpos cfg st sx sy sa elite mr r h
    obtain ⟨l, r', hf, hlen⟩ := ih r1
    refine ⟨car :: l, r', ?_, by simp [hlen]⟩
    rw [evolveFill_succ]
    simp only [hc, hf]

theorem eliteCountOf_init20 : eliteCountOf (GAState.init 20) = 5 := by
  have h5 : ((GAState.init 20).populationSize : ℚ) * (1 / 4) = ((5 : ℤ) : ℚ) := by
    norm_num [GAState.init]
  rw [eliteCountOf, h5, Int.floor_intCast]
  rfl

/-- C1: with the default configuration (populationSize 20, elitism 1,
crossoverRate 0, mutationRate 0.01) and a fresh engine (generation 1),
one `evolve` call on any 20-car population in which every agent has
fitness 0 succeeds for every random source and start pose, returns
exactly 20 new agents, the first of which carries a verbatim
(unmodified) clone of the best individual's controller — with all
scores tied, the stable sort makes the first car the best — and the
generation counter goes from 1 to exactly 2. -/
theorem evolve_default_scenario (c0 : Car) (rest : List Car) (r : RandSrc)
    (sx sy sa : ℚ) (hlen : (c0 :: rest).length = 20)
    (hfit : ∀ c ∈ c0 :: rest, c.fitness = 0) (hwf : c0.brain.WellFormed) :
    ∃ newCars st' r',
      evolve defaultConfig (GAState.init 20) (c0 :: rest) sx sy sa r =
        some (newCars, st', r') ∧
      (GAState.init 20).generation = 1 ∧ st'.generation = 2 ∧
      newCars.length = 20 ∧
      ∃ first restN, newCars = first :: restN ∧ first.brain = c0.brain ∧
        first.isBest = true := by
  have hsh' : applyFitnessSharing defaultConfig (c0 :: rest) = c0 :: rest := by
    simp [applyFitnessSharing, defaultConfig]
  have hnov' : ∀ a, applyNoveltyScores defaultConfig a (c0 :: rest) =
      (c0 :: rest, a) := by
    intro a
    simp [applyNoveltyScores, defaultConfig]
  have hkey : sortKeyOf defaultConfig = fun c => c.fitness := by
    simp [sortKeyOf, defaultConfig]
  have hsorted : sortDescBy (sortKeyOf defaultConfig) (c0 :: rest) = c0 :: rest := by
    rw [hkey]
    exact sortDescBy_eq_self fun a ha b hb => by rw [hfit a ha, hfit b hb]
  have hsel : selection defaultConfig (GAState.init 20) (c0 :: rest) r =
      some (c0 :: rest, (c0 :: rest).take (eliteCountOf (GAState.init 20)),
        (selectionRecords (GAState.init 20) (GAState.init 20).noveltyArchive
          (diversityValue (c0 :: rest)) c0 r).1,
        (selectionRecords (GAState.init 20) (GAState.init 20).noveltyArchive
          (diversityValue (c0 :: rest)) c0 r).2) := by
    simp only [selection, hsh', hnov', hsorted, hlen]
    norm_num
  have hrest : rest.length = 19 := by
    simp only [List.length_cons] at hlen
    omega
  have htake : (c0 :: rest).take (eliteCountOf (GAState.init 20)) =
      c0 :: rest.take 4 := by
    rw [eliteCountOf_init20]
    rfl
  set st1 := (selectionRecords (GAState.init 20) (GAState.init 20).noveltyArchive
    (diversityValue (c0 :: rest)) c0 r).1 with hst1
  set r1 := (selectionRecords (GAState.init 20) (GAState.init 20).noveltyArchive
    (diversityValue (c0 :: rest)) c0 r).2 with hr1
  have hpop : st1.populationSize = 20 := by
    rw [hst1, selectionRecords_populationSize]
    rfl
  have hgen1 : st1.generation = 1 := by
    rw [hst1, selectionRecords_generation]
    rfl
  have helen : ((c0 :: rest).take (eliteCountOf (GAState.init 20))).length = 5 := by
    rw [htake]
    simp [List.length_take, hrest]
  have hmin : min defaultConfig.genetic.elitism
      ((c0 :: rest).take (eliteCountOf (GAState.init 20))).length = 1 := by
    rw [helen]
    rfl
  -- the elitism loop over [0] builds one car with a verbatim brain clone
  have hclone := clone_fst_of_wf hwf
  have helites : evolveElites defaultConfig sx sy sa
      ((c0 :: rest).take (eliteCountOf (GAState.init 20))) (List.range 1) r1 =
      ([{ (Car.create defaultConfig sx sy sa (some c0.brain)
          ((c0.brain.clone r1).2)).1 with
          isBest := true, color := JsColor.gold }],
        (Car.create defaultConfig sx sy sa (some c0.brain)
          ((c0.brain.clone r1).2)).2) := by
    rw [show List.range 1 = [0] from rfl]
    simp only [evolveElites, htake, List.getD_cons_zero, hclone]
    rfl
  set first : Car := { (Car.create defaultConfig sx sy sa (some c0.brain)
    ((c0.brain.clone r1).2)).1 with isBest := true, color := JsColor.gold } with hfirst
  set r2 : RandSrc := (Car.create defaultConfig sx sy sa (some c0.brain)
    ((c0.brain.clone r1).2)).2 with hr2def
  have hfirstbrain : first.brain = c0.brain := rfl
  have hfirstbest : first.isBest = true := rfl
  have hrate : defaultConfig.genetic.crossoverRate ≤ 0 := le_of_eq rfl
  obtain ⟨fl, fr, hfill, hfl⟩ := evolveFill_some_of_rate_nonpos defaultConfig st1 sx sy sa
    ((c0 :: rest).take (eliteCountOf (GAState.init 20)))
    (getCurrentMutationRate defaultConfig st1) hrate (st1.populationSize - 1) r2
  have hev : evolve defaultConfig (GAState.init 20) (c0 :: rest) sx sy sa r =
      some (first :: fl, { st1 with generation := st1.generation + 1 }, fr) := by
    simp only [evolve, hsel, hmin, helites, hfill]
    rfl
  refine ⟨_, _, _, hev, rfl, ?_, ?_, ?_⟩
  · show st1.generation + 1 = 2
    rw [hgen1]
  · rw [List.length_cons, hfl, hpop]
  · exact ⟨first, _, rfl, hfirstbrain, hfirstbest⟩

/-- C1 witness: the default-configuration evolve scenario applied to a
concrete 20-car all-zero-fitness population (`cars20` viewed as head
and tail). -/
theorem evolve_default_scenario_witness :
    ((carFit 0 :: List.replicate 19 (carFit 0)).length = 20 ∧
      (∀ c ∈ carFit 0 :: List.replicate 19 (carFit 0), c.fitness = 0) ∧
      (carFit 0).brain.WellFormed) ∧
    (∃ newCars st' r',
      evolve defaultConfig (GAState.init 20)
        (carFit 0 :: List.replicate 19 (carFit 0)) 5 6 0 rzero =
        some (newCars, st', r') ∧
      (GAState.init 20).generation = 1 ∧ st'.generation = 2 ∧
      newCars.length = 20 ∧
      ∃ first restN, newCars = first :: restN ∧ first.brain = (carFit 0).brain ∧
        first.isBest = true) :=
  ⟨⟨by decide, by with_unfolding_all decide, by decide⟩,
    evolve_default_scenario (carFit 0) (List.replicate 19 (carFit 0)) rzero 5 6 0
      (by decide) (by with_unfolding_all decide) (by decide)⟩

end CrazySmartCar
